import Mathlib

/-!
Shallow embedding of the nmk model core (src/nmk/model/config.py,
src/nmk/model/task.py, src/nmk/model/loader.py).

Config resolution is mutually recursive through the config registry, so the
embedding threads an explicit fuel parameter; every recursive call consumes one
unit of fuel, and running out of fuel is reported as a distinguished error that
never occurs for the (finite) executions the theorems talk about.

Mutable state (per-config cached values, and the number of calls made to
resolver capabilities) is threaded explicitly through a `St` value.
-/

namespace Nmk

/-- Python values handled by the config engine: the `Union[str, int, bool, list, dict]`
annotation of `NmkConfig.value`.  Dicts are insertion-ordered association lists,
mirroring Python dict semantics. -/
inductive CVal where
  | str (s : String)
  | int (n : Int)
  | bool (b : Bool)
  | list (items : List CVal)
  | dict (entries : List (String × CVal))
deriving Repr

/-- Runtime type tags for `CVal`, standing for the Python classes
`str`, `int`, `bool`, `list`, `dict`. -/
inductive CTy where
  | str | int | bool | list | dict
deriving Repr, DecidableEq

def typeOf : CVal → CTy
  | .str _ => .str
  | .int _ => .int
  | .bool _ => .bool
  | .list _ => .list
  | .dict _ => .dict

/-- Python `isinstance(v, t)`: `bool` is a subclass of `int`. -/
def isinstanceOf (v : CVal) (t : CTy) : Bool :=
  match v, t with
  | .bool _, .int => true
  | v, t => typeOf v == t

def CVal.isStr : CVal → Bool
  | .str _ => true
  | _ => false

/-- Lookup in an insertion-ordered association list (Python `d[k]` / `k in d`).
Python dicts never hold duplicate keys, so first-match lookup is exact. -/
def alistFind {α : Type} : List (String × α) → String → Option α
  | [], _ => none
  | kv :: rest, k => if kv.1 == k then some kv.2 else alistFind rest k

/-- Python `d[k] = v` on an insertion-ordered dict: update in place if the key
exists (keeping its position), otherwise append at the end. -/
def alistSet {α : Type} : List (String × α) → String → α → List (String × α)
  | [], k, v => [(k, v)]
  | kv :: rest, k, v => if kv.1 == k then (k, v) :: rest else kv :: alistSet rest k v

/-- Literal brace characters (escaped, written once here). -/
def lbrace : Char := '\x7b'
def rbrace : Char := '\x7d'

/-- Python `str.split('.')` on a character list: always at least one piece, with
empty pieces around consecutive or leading/trailing dots. -/
def splitOnDot : List Char → List (List Char)
  | [] => [[]]
  | c :: cs =>
    let r := splitOnDot cs
    if c = '.' then [] :: r
    else
      match r with
      | h :: t => (c :: h) :: t
      | [] => [[c]]

/-- Longest prefix of characters matching the regex class `[^ \}]`
(neither a space nor a closing brace), together with the rest. -/
def takeName : List Char → List Char × List Char
  | [] => ([], [])
  | c :: cs =>
    if c = rbrace || c = ' ' then ([], c :: cs)
    else
      let (n, r) := takeName cs
      (c :: n, r)

/-- Does a reference token (regex `\$\{([^ \}]+)\}` from config.py) match exactly at
the head of the character list?  Returns the token name and the rest after the
closing brace. -/
def matchRefAt : List Char → Option (List Char × List Char)
  | '$' :: c2 :: rest =>
    if c2 = lbrace then
      match takeName rest with
      | (n :: ns, r0 :: rtl) => if r0 = rbrace then some (n :: ns, rtl) else none
      | _ => none
    else none
  | _ => none

/-- Leftmost match of `CONFIG_REF_PATTERN` in a character list (Python
`CONFIG_REF_PATTERN.search`): returns (text before the token, token name,
text after the token). -/
def findRef : List Char → Option (List Char × List Char × List Char)
  | [] => none
  | c :: cs =>
    match matchRefAt (c :: cs) with
    | some (name, rest) => some ([], name, rest)
    | none =>
      match findRef cs with
      | some (pre, name, suf) => some (c :: pre, name, suf)
      | none => none

mutual
/-- Python `repr` of a value, as used for elements when `str` is applied to a
container.  String escaping inside `repr` is approximated (no claim exercises it). -/
def pyRepr : CVal → String
  | .str s => "'" ++ s ++ "'"
  | .int n => toString n
  | .bool b => if b then "True" else "False"
  | .list xs => "[" ++ pyReprJoin xs ++ "]"
  | .dict es => "\x7b" ++ pyReprEntries es ++ "\x7d"

def pyReprJoin : List CVal → String
  | [] => ""
  | [x] => pyRepr x
  | x :: y :: xs => pyRepr x ++ ", " ++ pyReprJoin (y :: xs)

def pyReprEntries : List (String × CVal) → String
  | [] => ""
  | [(k, v)] => "'" ++ k ++ "': " ++ pyRepr v
  | (k, v) :: e :: es => "'" ++ k ++ "': " ++ pyRepr v ++ ", " ++ pyReprEntries (e :: es)
end

/-- Python `str` of a value (used when splicing a resolved reference into a string). -/
def pyStr : CVal → String
  | .str s => s
  | v => pyRepr v

/-- Python `str(path if path is not None else self.path)`: `str(None)` is `"None"`. -/
def pyOptPathStr : Option String → String
  | some p => p
  | none => "None"

/-- Modelled from the spec: `NmkRootConfig.BASE_DIR` lives in `nmk/model/keys.py`,
which is not under src/; it is the single reserved config name denoting the
directory containing the declaring file ("base-directory token").  Its exact
text decides no claim; only its identity as a reserved name matters. -/
def BASE_DIR : String := "BASEDIR"

/-- Failures of the resolution core.  Python raises `AssertionError` /
`Exception`; the constructors record which `assert` (by its message content)
fired.  `outOfFuel` is the embedding artifact for exhausted fuel. -/
inductive Err where
  | cyclicRef (refName selfName : String)
  | unknownConfig (refName selfName : String)
  | dotNotDict (selfName refName : String)
  | dotEmptySegment (selfName refName : String)
  | dotUnknownKey (segment selfName refName : String)
  | resolverTypeMismatch (got declared : CTy)
  | wrapped (cfgName : String) (e : Err)
  | attrError
  | outOfFuel
deriving Repr

/-- The resolver capability of `NmkResolvedConfig` (`get_value`, `get_type`,
`is_volatile`), already applied to its config's name.  `get_value` takes the
number of resolver calls made so far, so that a volatile resolver may return a
different value on each call. -/
structure Resolver where
  get_value : Nat → CVal
  get_type : CTy
  is_volatile : Bool

/-- One contributing holder of a merged config: an `NmkStaticConfig` carried in
`NmkMergedConfig.static_list`. -/
structure Holder where
  name : String
  path : Option String
  staticValue : CVal

/-- The concrete `NmkConfig` subclasses. -/
inductive CfgData where
  | static (staticValue : CVal)
  | resolved (resolver : Resolver)
  | listCfg (staticList : List Holder)
  | dictCfg (staticList : List Holder)

/-- A config node: `name`, declaring `path` and variant data. -/
structure Cfg where
  name : String
  path : Option String
  data : CfgData

/-- The model as seen by config resolution: the registry `model.config`. -/
structure Model where
  config : List (String × Cfg)

def lookupCfg (model : Model) (name : String) : Option Cfg :=
  alistFind model.config name

/-- Threaded mutable state: per-config `cached_value` slots, and the number of
resolver `get_value` invocations made so far. -/
structure St where
  cacheMap : List (String × CVal)
  resolverCalls : Nat
deriving Repr

def St.init : St := ⟨[], 0⟩

/-- The doted-reference walk of `NmkConfig._format` (config.py lines 87-94):
iterate on segments as long as values are dicts, asserting dict-ness,
non-empty segment and key presence, in that order. -/
def dotWalk (selfName refName : String) : List String → CVal → Except Err CVal
  | [], v => .ok v
  | seg :: rest, v =>
    match v with
    | .dict entries =>
      if seg.length = 0 then .error (.dotEmptySegment selfName refName)
      else
        match alistFind entries seg with
        | some v2 => dotWalk selfName refName rest v2
        | none => .error (.dotUnknownKey seg selfName refName)
    | _ => .error (.dotNotDict selfName refName)

/-- Python iteration `for item in v` (used by `traverse_list` on a holder's
value): lists yield items, strings yield 1-character strings, dicts yield keys,
other values raise (`TypeError`, collapsed into `attrError` here). -/
def pyIter : CVal → Except Err (List CVal)
  | .list xs => .ok xs
  | .str s => .ok (s.data.map fun c => CVal.str (String.mk [c]))
  | .dict es => .ok (es.map fun kv => CVal.str kv.1)
  | _ => .error .attrError

/-- Python `v.items()`: raises `AttributeError` on non-dicts. -/
def pyItems : CVal → Except Err (List (String × CVal))
  | .dict es => .ok es
  | _ => .error .attrError

/-- Python `v.append`-ability (the out-slot `traverse_list` pushes into):
raises `AttributeError` on non-lists. -/
def pyListSlot : CVal → Except Err (List CVal)
  | .list xs => .ok xs
  | _ => .error .attrError

mutual

/-- `NmkConfig._format` (config.py lines 44-102): copy the ancestry set, add the
current config's name, then map lists/dicts recursively, pass non-strings
through, and interpolate strings. -/
def fmt : Nat → Model → String → Option String → Bool → CVal → Option (List String) →
    Option String → St → Except Err (CVal × St)
  | 0, _, _, _, _, _, _, _, _ => .error .outOfFuel
  | fuel+1, model, selfName, selfPath, cache, candidate, rf0, path, st =>
    let rf := selfName :: rf0.getD []
    match candidate with
    | .list items => do
        let (out, st1) ← fmtItems fuel model selfName selfPath cache items rf path st
        Except.ok (CVal.list out, st1)
    | .dict entries => do
        let (out, st1) ← fmtEntries fuel model selfName selfPath cache entries rf path st
        Except.ok (CVal.dict out, st1)
    | .str s => fmtStr fuel model selfName selfPath cache s rf path st
    | c => Except.ok (c, st)

/-- The list comprehension of `_format` (line 52), threading state left to right. -/
def fmtItems : Nat → Model → String → Option String → Bool → List CVal → List String →
    Option String → St → Except Err (List CVal × St)
  | 0, _, _, _, _, _, _, _, _ => .error .outOfFuel
  | _+1, _, _, _, _, [], _, _, st => .ok ([], st)
  | fuel+1, model, selfName, selfPath, cache, item :: rest, rf, path, st => do
      let (v, st1) ← fmt fuel model selfName selfPath cache item (some rf) path st
      let (vs, st2) ← fmtItems fuel model selfName selfPath cache rest rf path st1
      Except.ok (v :: vs, st2)

/-- The dict comprehension of `_format` (line 54). -/
def fmtEntries : Nat → Model → String → Option String → Bool → List (String × CVal) →
    List String → Option String → St → Except Err (List (String × CVal) × St)
  | 0, _, _, _, _, _, _, _, _ => .error .outOfFuel
  | _+1, _, _, _, _, [], _, _, st => .ok ([], st)
  | fuel+1, model, selfName, selfPath, cache, (k, v) :: rest, rf, path, st => do
      let (fv, st1) ← fmt fuel model selfName selfPath cache v (some rf) path st
      let (rest1, st2) ← fmtEntries fuel model selfName selfPath cache rest rf path st1
      Except.ok ((k, fv) :: rest1, st2)

/-- The `while m is not None` interpolation loop of `_format` (lines 59-102):
find the leftmost reference token, resolve it (base-dir token, plain name, or
doted path), return the raw non-string value when the whole string is exactly
one token, otherwise splice the stringified value in and rescan the whole
updated string. -/
def fmtStr : Nat → Model → String → Option String → Bool → String → List String →
    Option String → St → Except Err (CVal × St)
  | 0, _, _, _, _, _, _, _, _ => .error .outOfFuel
  | fuel+1, model, selfName, selfPath, cache, toFormat, rf, path, st =>
    match findRef toFormat.data with
    | none => .ok (.str toFormat, st)
    | some (pre, nameChars, suf) => do
      let (refValue, st1) ← resolveToken fuel model selfName selfPath cache rf path st nameChars
      if pre.isEmpty && suf.isEmpty && !refValue.isStr then
        Except.ok (refValue, st1)
      else
        fmtStr fuel model selfName selfPath cache
          (String.mk (pre ++ (pyStr refValue).data ++ suf)) rf path st1

/-- The body of one iteration of the `_format` while-loop (config.py lines
65-94): compute `ref_value` for the token name just found — base-directory
token, plain config reference, or doted reference walked through `dotWalk`,
with the cyclic-ancestry and unknown-name asserts of lines 79-80. -/
def resolveToken : Nat → Model → String → Option String → Bool → List String →
    Option String → St → List Char → Except Err (CVal × St)
  | 0, _, _, _, _, _, _, _, _ => .error .outOfFuel
  | fuel+1, model, selfName, selfPath, cache, rf, path, st, nameChars =>
    let refName := String.mk nameChars
    if refName == BASE_DIR then
      Except.ok (CVal.str (pyOptPathStr (path.orElse fun _ => selfPath)), st)
    else
      let (cfgName, segments) :=
        if refName.data.contains '.' then
          match (splitOnDot refName.data).map String.mk with
          | s0 :: rest => (s0, some rest)
          | [] => (refName, none)
        else (refName, (none : Option (List String)))
      if rf.contains cfgName then Except.error (.cyclicRef cfgName selfName)
      else
        match lookupCfg model cfgName with
        | none => Except.error (.unknownConfig cfgName selfName)
        | some cfg => do
            let (rv, st1) ← resolveCfg fuel model cfg cache (some rf) st
            match segments with
            | none => Except.ok (rv, st1)
            | some segs => do
                let v ← dotWalk selfName cfgName segs rv
                Except.ok (v, st1)

/-- `NmkConfig.resolve` (lines 30-42) combined with the `NmkResolvedConfig.resolve`
override (lines 131-133): caching is force-disabled when the resolver is
volatile; a cached value is returned untouched only when caching is (still)
requested and a cached value exists. -/
def resolveCfg : Nat → Model → Cfg → Bool → Option (List String) → St → Except Err (CVal × St)
  | 0, _, _, _, _, _ => .error .outOfFuel
  | fuel+1, model, cfg, cache0, rf, st =>
    let cache := match cfg.data with
      | .resolved r => cache0 && !r.is_volatile
      | _ => cache0
    match alistFind st.cacheMap cfg.name, cache with
    | some v, true => .ok (v, st)
    | _, _ => do
        let (out, st1) ← getValue fuel model cfg cache rf st
        if cache then Except.ok (out, ⟨alistSet st1.cacheMap cfg.name out, st1.resolverCalls⟩)
        else Except.ok (out, st1)

/-- The `_get_value` implementations: `NmkStaticConfig` (line 118), `NmkResolvedConfig`
(lines 135-146, with type check and contextual error wrapping), `NmkListConfig`
(lines 193-198) and `NmkDictConfig` (lines 207-212). -/
def getValue : Nat → Model → Cfg → Bool → Option (List String) → St → Except Err (CVal × St)
  | 0, _, _, _, _, _ => .error .outOfFuel
  | fuel+1, model, cfg, cache, rf, st =>
    match cfg.data with
    | .static v => fmt fuel model cfg.name cfg.path cache v rf none st
    | .resolved r =>
        let body : Except Err (CVal × St) :=
          let out := r.get_value st.resolverCalls
          let st1 : St := ⟨st.cacheMap, st.resolverCalls + 1⟩
          if isinstanceOf out r.get_type then
            fmt fuel model cfg.name cfg.path cache out rf none st1
          else Except.error (.resolverTypeMismatch (typeOf out) r.get_type)
        match body with
        | .error e => .error (.wrapped cfg.name e)
        | .ok res => .ok res
    | .listCfg holders => do
        let (out, st1) ← mergeListHolders fuel model cfg holders cache rf [] st
        Except.ok (CVal.list out, st1)
    | .dictCfg holders => do
        let (out, st1) ← mergeDictHolders fuel model cfg holders cache rf [] st
        Except.ok (CVal.dict out, st1)

/-- `NmkMergedConfig.traverse_list` (lines 162-170): format each item with the
holder's path as interpolation base, flatten sub-lists recursively, append
everything else. -/
def traverseList : Nat → Model → Cfg → List CVal → List CVal → Bool → Option (List String) →
    Holder → St → Except Err (List CVal × St)
  | 0, _, _, _, _, _, _, _, _ => .error .outOfFuel
  | _+1, _, _, [], out, _, _, _, st => .ok (out, st)
  | fuel+1, model, cfg, item :: rest, out, cache, rf, holder, st => do
      let (fi, st1) ← fmt fuel model cfg.name cfg.path cache item rf holder.path st
      match fi with
      | .list subitems => do
          let (out1, st2) ← traverseList fuel model cfg subitems out cache rf holder st1
          traverseList fuel model cfg rest out1 cache rf holder st2
      | fi => traverseList fuel model cfg rest (out ++ [fi]) cache rf holder st1

/-- `NmkMergedConfig.traverse_dict` (lines 173-188): dict-valued entries are
recursively dict-merged, list-valued entries are recursively list-merged, and
plain items override. -/
def traverseDict : Nat → Model → Cfg → List (String × CVal) → List (String × CVal) → Bool →
    Option (List String) → Holder → St → Except Err (List (String × CVal) × St)
  | 0, _, _, _, _, _, _, _, _ => .error .outOfFuel
  | _+1, _, _, [], out, _, _, _, st => .ok (out, st)
  | fuel+1, model, cfg, (k, v) :: rest, out, cache, rf, holder, st => do
      let (fi, st1) ← fmt fuel model cfg.name cfg.path cache v rf holder.path st
      match fi with
      | .dict fentries => do
          let cur := (alistFind out k).getD (CVal.dict [])
          let curEntries ← pyItems cur
          let (merged, st2) ← traverseDict fuel model cfg fentries curEntries cache rf holder st1
          traverseDict fuel model cfg rest (alistSet out k (CVal.dict merged)) cache rf holder st2
      | .list fitems => do
          let cur := (alistFind out k).getD (CVal.list [])
          let curItems ← pyListSlot cur
          let (merged, st2) ← traverseList fuel model cfg fitems curItems cache rf holder st1
          traverseDict fuel model cfg rest (alistSet out k (CVal.list merged)) cache rf holder st2
      | fi => traverseDict fuel model cfg rest (alistSet out k fi) cache rf holder st1

/-- The holder loop of `NmkListConfig._get_value` (lines 195-197): each holder's
own raw value is produced by `NmkStaticConfig._get_value` with a fresh ancestry
(`holder._get_value(cache)` passes no `resolved_from`), then merged in order. -/
def mergeListHolders : Nat → Model → Cfg → List Holder → Bool → Option (List String) →
    List CVal → St → Except Err (List CVal × St)
  | 0, _, _, _, _, _, _, _ => .error .outOfFuel
  | _+1, _, _, [], _, _, acc, st => .ok (acc, st)
  | fuel+1, model, cfg, h :: hs, cache, rf, acc, st => do
      let (hv, st1) ← fmt fuel model h.name h.path cache h.staticValue none none st
      let items ← pyIter hv
      let (acc1, st2) ← traverseList fuel model cfg items acc cache rf h st1
      mergeListHolders fuel model cfg hs cache rf acc1 st2

/-- The holder loop of `NmkDictConfig._get_value` (lines 209-211). -/
def mergeDictHolders : Nat → Model → Cfg → List Holder → Bool → Option (List String) →
    List (String × CVal) → St → Except Err (List (String × CVal) × St)
  | 0, _, _, _, _, _, _, _ => .error .outOfFuel
  | _+1, _, _, [], _, _, acc, st => .ok (acc, st)
  | fuel+1, model, cfg, h :: hs, cache, rf, acc, st => do
      let (hv, st1) ← fmt fuel model h.name h.path cache h.staticValue none none st
      let entries ← pyItems hv
      let (acc1, st2) ← traverseDict fuel model cfg entries acc cache rf h st1
      mergeDictHolders fuel model cfg hs cache rf acc1 st2

end

/-- Resolve a config by registry name (how `_format` reaches referenced configs,
and how external callers reach `.value`). -/
def resolveName (fuel : Nat) (model : Model) (name : String) (cache : Bool) (st : St) :
    Except Err (CVal × St) :=
  match lookupCfg model name with
  | some cfg => resolveCfg fuel model cfg cache none st
  | none => .error (.unknownConfig name name)

/-!  Task dependency graph (src/nmk/model/task.py, src/nmk/model/loader.py).

Tasks mutate each other's dependency lists during the validation pass, so the
task table is embedded as an arena keyed by task name, and `subtasks` holds task
names (the arena's stable identifiers) where Python holds object references.
There is no recursion through the arena, so no fuel is needed. -/

/-- The `NmkTask` fields the dependency-graph assembly reads and writes:
`_deps`, `_append_to`, `_prepend_to` (absent or a list of candidate names; a
plain string in Python behaves as the singleton list, line 34) and the lazily
resolved `subtasks`. -/
structure TaskData where
  deps : List String
  append_to : Option (List String)
  prepend_to : Option (List String)
  subtasks : Option (List String)
deriving Repr, DecidableEq

abbrev TaskArena := List (String × TaskData)

/-- The `AssertionError` of `NmkTask.__resolve_task` (task.py line 39). -/
inductive TErr where
  | taskNotFound (candidates : List String) (selfName : String)
deriving Repr, DecidableEq

def taskFind (arena : TaskArena) (n : String) : Option TaskData := alistFind arena n

def taskSet (arena : TaskArena) (n : String) (td : TaskData) : TaskArena := alistSet arena n td

/-- `NmkTask.__resolve_task` (lines 31-40): `None` resolves to no target; else
the first candidate name present in the task table wins, and the `for`/`else`
raises when no candidate exists. -/
def resolveTaskRef (arena : TaskArena) (selfName : String) (name : Option (List String)) :
    Except TErr (Option String) :=
  match name with
  | none => .ok none
  | some nameList =>
    match nameList.find? (fun n => (taskFind arena n).isSome) with
    | some n => .ok (some n)
    | none => .error (.taskNotFound nameList selfName)

/-- The `map(self.__resolve_task, self._deps)` of `_resolve_subtasks` (line 61),
resolving each declared dependency name individually. -/
def resolveDeps (arena : TaskArena) (selfName : String) : List String →
    Except TErr (List (Option String))
  | [] => .ok []
  | d :: rest => do
      let t ← resolveTaskRef arena selfName (some [d])
      let ts ← resolveDeps arena selfName rest
      Except.ok (t :: ts)

/-- `NmkTask._resolve_subtasks` (lines 57-62) acting on one task's data:
idempotent once `subtasks` is populated; otherwise map dependency names through
lookup and keep the non-`None` results, in order. -/
def resolveSubtasksData (arena : TaskArena) (selfName : String) (td : TaskData) :
    Except TErr TaskData :=
  match td.subtasks with
  | some _ => .ok td
  | none => do
      let resolved ← resolveDeps arena selfName td.deps
      Except.ok { td with subtasks := some (resolved.filterMap id) }

/-- `_resolve_subtasks` on the arena entry named `n`. -/
def resolveSubtasks (arena : TaskArena) (n : String) : Except TErr TaskArena :=
  match taskFind arena n with
  | none => .ok arena
  | some td => do
      let td1 ← resolveSubtasksData arena n td
      Except.ok (taskSet arena n td1)

/-- `NmkTask.__contribute_dep` (lines 42-55): resolve the target (absent target
is a no-op); if found and the current task's name is not yet among the target's
dependency names, resolve the target's subtasks first, then push the current
task's name/object at the end (append) or at position zero (prepend) of both
target lists. -/
def contributeDep (arena : TaskArena) (selfName : String) (name : Option (List String))
    (append : Bool) : Except TErr TaskArena := do
  let t? ← resolveTaskRef arena selfName name
  match t? with
  | none => Except.ok arena
  | some tname =>
    match taskFind arena tname with
    | none => Except.ok arena
    | some td =>
      if selfName ∈ td.deps then Except.ok arena
      else do
        let td1 ← resolveSubtasksData arena tname td
        let td2 :=
          if append then
            { td1 with deps := td1.deps ++ [selfName],
                       subtasks := some (td1.subtasks.getD [] ++ [selfName]) }
          else
            { td1 with deps := selfName :: td1.deps,
                       subtasks := some (selfName :: td1.subtasks.getD []) }
        Except.ok (taskSet arena tname td2)

/-- `NmkTask._resolve_contribs` (lines 64-67). -/
def resolveContribs (arena : TaskArena) (selfName : String) : Except TErr TaskArena :=
  match taskFind arena selfName with
  | none => .ok arena
  | some td => do
      let a1 ← contributeDep arena selfName td.append_to true
      contributeDep a1 selfName td.prepend_to false

/-- `NmkLoader.validate_tasks` (loader.py lines 111-116): one pass over the task
table in order, resolving each task's subtasks then its contributions. -/
def validateTasks (arena : TaskArena) : Except TErr TaskArena :=
  (arena.map Prod.fst).foldlM
    (fun a n => do
      let a1 ← resolveSubtasks a n
      resolveContribs a1 n)
    arena

/-- The index-alignment invariant of a task arena: every task either has not
resolved its subtasks yet, or its subtask list names exactly its dependency
names, position by position. -/
def Aligned (arena : TaskArena) : Prop :=
  ∀ n td, taskFind arena n = some td → td.subtasks = none ∨ td.subtasks = some td.deps

/-!  Verification-side definitions: reference-freeness, fuel measures, the pure
merge/flatten functions written from the spec's merge wording, and concrete
example registries used by witnesses. -/

/-- Example registry for the C1 counterexample: config `A` holds the raw string
value with both an unknown reference and the token for `B`; `B` references `A`. -/
def cycExModel : Model :=
  ⟨[("A", ⟨"A", none, .static (.str "$\x7bC\x7d$\x7bB\x7d")⟩),
    ("B", ⟨"B", none, .static (.str "$\x7bA\x7d")⟩)]⟩

/-- Example registry for C4: `L` is a literal list, `R` is the single-token
string referencing it. -/
def typePreserveModel : Model :=
  ⟨[("L", ⟨"L", none, .static (.list [.int 1, .int 2, .int 3])⟩),
    ("R", ⟨"R", none, .static (.str "$\x7bL\x7d")⟩)]⟩

/-- Example registry for C10. -/
def remainderModel : Model :=
  ⟨[("L", ⟨"L", none, .static (.list [.int 1, .int 2, .int 3])⟩),
    ("E", ⟨"E", none, .static (.str "")⟩),
    ("R2", ⟨"R2", none, .static (.str "$\x7bE\x7d$\x7bL\x7d")⟩)]⟩

/-- Example registry for C7: `M` is a nested map, `S` a doted single-token
reference into it, `N` a doted reference that crosses a non-map value. -/
def dotModelEx : Model :=
  ⟨[("M", ⟨"M", none, .static (.dict [("a", .dict [("b", .int 5)])])⟩),
    ("S", ⟨"S", none, .static (.str "$\x7bM.a.b\x7d")⟩),
    ("N", ⟨"N", none, .static (.str "$\x7bM.a.b.c\x7d")⟩)]⟩

/-- Example resolver for C9: volatile, returning the current call count. -/
def volResEx : Resolver := ⟨fun k => .int (Int.ofNat k), .int, true⟩

def vCfgEx : Cfg := ⟨"V", none, .resolved volResEx⟩

def volModelEx : Model := ⟨[("V", vCfgEx)]⟩

mutual
def refFree : CVal → Bool
  | .str s => (findRef s.data).isNone
  | .int _ => true
  | .bool _ => true
  | .list xs => refFreeItems xs
  | .dict es => refFreeEntries es

def refFreeItems : List CVal → Bool
  | [] => true
  | x :: xs => refFree x && refFreeItems xs

def refFreeEntries : List (String × CVal) → Bool
  | [] => true
  | (_, v) :: es => refFree v && refFreeEntries es
end

mutual
def fmtFuel : CVal → Nat
  | .str _ => 2
  | .int _ => 1
  | .bool _ => 1
  | .list xs => 1 + fmtItemsFuel xs
  | .dict es => 1 + fmtEntriesFuel es

def fmtItemsFuel : List CVal → Nat
  | [] => 1
  | x :: xs => 1 + max (fmtFuel x) (fmtItemsFuel xs)

def fmtEntriesFuel : List (String × CVal) → Nat
  | [] => 1
  | (_, v) :: es => 1 + max (fmtFuel v) (fmtEntriesFuel es)
end

mutual
/-- One item of the recursive list flattening: sub-lists flatten in place,
anything else stays a single item. -/
def flattenOne : CVal → List CVal
  | .list sub => flattenItems sub
  | v => [v]

/-- The pure content of `traverse_list` on already-formatted items: recursively
flatten nested sub-lists in place, preserving order (spec: "items from earlier
contributing holders precede later ones, recursively flattening nested lists"). -/
def flattenItems : List CVal → List CVal
  | [] => []
  | x :: rest => flattenOne x ++ flattenItems rest
end

mutual
/-- One entry of the pure deep merge of `traverse_dict` on already-formatted
values (spec: "later holders override scalar keys of earlier ones and
recursively merge nested maps/lists rather than replacing them wholesale"). -/
def specMergeDictOne : String → CVal → List (String × CVal) →
    Except Err (List (String × CVal))
  | k, .dict fentries, out => do
      let curEntries ← pyItems ((alistFind out k).getD (CVal.dict []))
      let merged ← specMergeDictEntries fentries curEntries
      Except.ok (alistSet out k (.dict merged))
  | k, .list fitems, out => do
      let curItems ← pyListSlot ((alistFind out k).getD (CVal.list []))
      Except.ok (alistSet out k (.list (curItems ++ flattenItems fitems)))
  | k, v, out => .ok (alistSet out k v)

/-- The pure content of `traverse_dict` on already-formatted entries. -/
def specMergeDictEntries : List (String × CVal) → List (String × CVal) →
    Except Err (List (String × CVal))
  | [], out => .ok out
  | (k, v) :: rest, out => do
      let out1 ← specMergeDictOne k v out
      specMergeDictEntries rest out1
end

/-- The pure content of `NmkListConfig._get_value`: concatenate the holders'
(list-valued) items in holder order, flattening recursively. -/
def specListMergeHolders : List Holder → List CVal → Except Err (List CVal)
  | [], acc => .ok acc
  | h :: hs, acc =>
    match h.staticValue with
    | .list xs => specListMergeHolders hs (acc ++ flattenItems xs)
    | _ => .error .attrError

/-- The pure content of `NmkDictConfig._get_value`: deep-merge the holders'
(dict-valued) entries in holder order. -/
def specDictMergeHolders : List Holder → List (String × CVal) →
    Except Err (List (String × CVal))
  | [], acc => .ok acc
  | h :: hs, acc =>
    match h.staticValue with
    | .dict es => do
        let acc1 ← specMergeDictEntries es acc
        specDictMergeHolders hs acc1
    | _ => .error .attrError

/-- Example holders and registry for C6: Merged(List) from `["a","b"]` then `["c"]`. -/
def listHolder1 : Holder := ⟨"LM", none, .list [.str "a", .str "b"]⟩
def listHolder2 : Holder := ⟨"LM", none, .list [.str "c"]⟩
def listCfgEx : Cfg := ⟨"LM", none, .listCfg [listHolder1, listHolder2]⟩
def listModelEx : Model := ⟨[("LM", listCfgEx)]⟩

/-- Example holders and registry for C5: Merged(Dict) from a holder carrying a
scalar `x` and a nested map `y`, then an overlay holder contributing `y.w`. -/
def dictHolder1 : Holder := ⟨"DM", none, .dict [("x", .int 1), ("y", .dict [("z", .int 1)])]⟩
def dictHolder2 : Holder := ⟨"DM", none, .dict [("y", .dict [("w", .int 2)])]⟩
def dictCfgEx : Cfg := ⟨"DM", none, .dictCfg [dictHolder1, dictHolder2]⟩
def dictModelEx : Model := ⟨[("DM", dictCfgEx)]⟩

/-!  Helper lemmas and theorems. -/

theorem except_bind_ok {ε α β : Type} (x : Except ε α) (f : α → Except ε β) (b : β) :
    (x >>= f) = Except.ok b ↔ ∃ a, x = Except.ok a ∧ f a = Except.ok b := by
  cases x <;> simp [Bind.bind, Except.bind]

theorem alistFind_alistSet {α : Type} (l : List (String × α)) (k m : String) (v : α) :
    alistFind (alistSet l k v) m = if k = m then some v else alistFind l m := by
  induction l with
  | nil =>
    by_cases hm : k = m <;> simp [alistFind, alistSet, hm, beq_iff_eq]
  | cons hd tl ih =>
    by_cases hk : hd.1 = k
    · by_cases hm : k = m <;> simp [alistSet, alistFind, hk, hm, beq_iff_eq]
    · by_cases hm : hd.1 = m
      · have hkm : ¬ k = m := fun h => hk (h ▸ hm)
        have hmk : ¬ m = k := fun h => hkm h.symm
        simp [alistSet, alistFind, hk, hm, hkm, hmk, beq_iff_eq]
      · simp [alistSet, alistFind, hk, hm, beq_iff_eq, ih]

theorem resolveTaskRef_single (arena : TaskArena) (s d : String) (x : Option String)
    (h : resolveTaskRef arena s (some [d]) = .ok x) : x = some d := by
  cases hp : (taskFind arena d).isSome <;> simp [resolveTaskRef, List.find?, hp] at h
  exact h.symm

theorem filterMap_id_map_some {α : Type} (l : List α) :
    (l.map some).filterMap id = l := by
  induction l with
  | nil => rfl
  | cons x xs ih => simp [List.filterMap_cons, ih]

theorem resolveDeps_ok (arena : TaskArena) (s : String) (deps : List String)
    (l : List (Option String)) (h : resolveDeps arena s deps = .ok l) :
    l = deps.map some := by
  induction deps generalizing l with
  | nil =>
    simp [resolveDeps] at h
    simp [← h]
  | cons d rest ih =>
    simp only [resolveDeps] at h
    rw [except_bind_ok] at h
    obtain ⟨t, ht, h⟩ := h
    rw [except_bind_ok] at h
    obtain ⟨ts, hts, h⟩ := h
    obtain rfl : t = some d := resolveTaskRef_single _ _ _ _ ht
    obtain rfl := ih ts hts
    simp only [Except.ok.injEq] at h
    simp [← h]

theorem resolveSubtasksData_ok (arena : TaskArena) (s : String) (td td' : TaskData)
    (h : resolveSubtasksData arena s td = .ok td') :
    td'.deps = td.deps ∧ td'.append_to = td.append_to ∧ td'.prepend_to = td.prepend_to ∧
      ((∃ l, td.subtasks = some l ∧ td' = td) ∨
        (td.subtasks = none ∧ td'.subtasks = some td.deps)) := by
  cases hs : td.subtasks with
  | some l =>
    simp [resolveSubtasksData, hs] at h
    simp [← h, hs]
  | none =>
    simp only [resolveSubtasksData, hs] at h
    rw [except_bind_ok] at h
    obtain ⟨resolved, hres, h⟩ := h
    obtain rfl := resolveDeps_ok _ _ _ _ hres
    simp only [Except.ok.injEq] at h
    subst h
    simp [hs, filterMap_id_map_some]

theorem resolveSubtasksData_aligned (arena : TaskArena) (s : String) (td td' : TaskData)
    (hal : td.subtasks = none ∨ td.subtasks = some td.deps)
    (h : resolveSubtasksData arena s td = .ok td') :
    td'.subtasks = some td'.deps := by
  obtain ⟨hd, -, -, hcase⟩ := resolveSubtasksData_ok _ _ _ _ h
  rcases hcase with ⟨l, hl, rfl⟩ | ⟨h1, h2⟩
  · rcases hal with hn | hs
    · rw [hl] at hn; cases hn
    · exact hs
  · rw [h2, hd]

theorem contributeDep_cases (arena : TaskArena) (s : String) (nm : Option (List String))
    (app : Bool) (a' : TaskArena) (h : contributeDep arena s nm app = .ok a') :
    a' = arena ∨
      ∃ tname td td1, taskFind arena tname = some td ∧ s ∉ td.deps ∧
        resolveSubtasksData arena tname td = .ok td1 ∧
        a' = taskSet arena tname
          (if app then
            { td1 with deps := td1.deps ++ [s], subtasks := some (td1.subtasks.getD [] ++ [s]) }
          else
            { td1 with deps := s :: td1.deps, subtasks := some (s :: td1.subtasks.getD []) }) := by
  simp only [contributeDep] at h
  rw [except_bind_ok] at h
  obtain ⟨t?, hres, h⟩ := h
  match t? with
  | none => simp at h; left; exact h.symm
  | some tname =>
    simp only at h
    cases hf : taskFind arena tname with
    | none => rw [hf] at h; simp at h; left; exact h.symm
    | some td =>
      rw [hf] at h
      simp only at h
      by_cases hmem : s ∈ td.deps
      · rw [if_pos hmem] at h; simp at h; left; exact h.symm
      · rw [if_neg hmem] at h
        rw [except_bind_ok] at h
        obtain ⟨td1, hsub, h⟩ := h
        simp only [Except.ok.injEq] at h
        right
        refine ⟨tname, td, td1, hf, hmem, hsub, ?_⟩
        cases app <;> simp_all

theorem taskFind_taskSet (arena : TaskArena) (k m : String) (td : TaskData) :
    taskFind (taskSet arena k td) m = if k = m then some td else taskFind arena m :=
  alistFind_alistSet arena k m td

theorem contributeDep_aligned (arena : TaskArena) (s : String) (nm : Option (List String))
    (app : Bool) (a' : TaskArena) (hA : Aligned arena)
    (h : contributeDep arena s nm app = .ok a') : Aligned a' := by
  rcases contributeDep_cases _ _ _ _ _ h with rfl | ⟨tname, td, td1, hf, hmem, hsub, rfl⟩
  · exact hA
  · intro n tdn hfind
    rw [taskFind_taskSet] at hfind
    by_cases he : tname = n
    · rw [if_pos he] at hfind
      have hs2 := resolveSubtasksData_aligned _ _ _ _ (hA _ _ hf) hsub
      cases app <;> simp only [Option.some.injEq] at hfind <;> subst hfind <;>
        right <;> simp [hs2, Option.getD]
    · rw [if_neg he] at hfind
      exact hA _ _ hfind

theorem resolveSubtasks_aligned (arena : TaskArena) (n : String) (a' : TaskArena)
    (hA : Aligned arena) (h : resolveSubtasks arena n = .ok a') : Aligned a' := by
  simp only [resolveSubtasks] at h
  cases hf : taskFind arena n with
  | none => rw [hf] at h; simp at h; subst h; exact hA
  | some td =>
    rw [hf] at h
    rw [except_bind_ok] at h
    obtain ⟨td1, hsub, h⟩ := h
    simp only [Except.ok.injEq] at h
    subst h
    intro m tdm hfind
    rw [taskFind_taskSet] at hfind
    by_cases he : n = m
    · rw [if_pos he] at hfind
      obtain rfl : td1 = tdm := by injection hfind
      exact Or.inr (resolveSubtasksData_aligned _ _ _ _ (hA _ _ hf) hsub)
    · rw [if_neg he] at hfind
      exact hA _ _ hfind

theorem resolveContribs_aligned (arena : TaskArena) (n : String) (a' : TaskArena)
    (hA : Aligned arena) (h : resolveContribs arena n = .ok a') : Aligned a' := by
  simp only [resolveContribs] at h
  cases hf : taskFind arena n with
  | none => rw [hf] at h; simp at h; subst h; exact hA
  | some td =>
    rw [hf] at h
    rw [except_bind_ok] at h
    obtain ⟨a1, h1, h2⟩ := h
    exact contributeDep_aligned _ _ _ _ _ (contributeDep_aligned _ _ _ _ _ hA h1) h2

theorem foldlM_aligned (step : TaskArena → String → Except TErr TaskArena)
    (hstep : ∀ a n a', Aligned a → step a n = .ok a' → Aligned a') :
    ∀ (names : List String) (a a' : TaskArena), Aligned a →
      List.foldlM step a names = .ok a' → Aligned a' := by
  intro names
  induction names with
  | nil =>
    intro a a' hA h
    simp only [List.foldlM_nil] at h
    obtain rfl : a = a' := by simpa [pure, Except.pure] using h
    exact hA
  | cons n rest ih =>
    intro a a' hA h
    simp only [List.foldlM_cons] at h
    rw [except_bind_ok] at h
    obtain ⟨a1, h1, h2⟩ := h
    exact ih a1 a' (hstep _ _ _ hA h1) h2

theorem validateTasks_aligned (arena : TaskArena) (a' : TaskArena)
    (hA : Aligned arena) (h : validateTasks arena = .ok a') : Aligned a' := by
  refine foldlM_aligned _ ?_ _ _ _ hA h
  intro a n a1 hAa hstep
  rw [except_bind_ok] at hstep
  obtain ⟨a2, hs1, hs2⟩ := hstep
  exact resolveContribs_aligned _ _ _ (resolveSubtasks_aligned _ _ _ hAa hs1) hs2

theorem find?_congr_local {α : Type} (p q : α → Bool) :
    ∀ l : List α, (∀ a, p a = q a) → List.find? p l = List.find? q l := by
  intro l h
  induction l with
  | nil => rfl
  | cons x xs ih => simp [List.find?, h x, ih]

theorem resolveTaskRef_taskSet (arena : TaskArena) (k : String) (v tdk : TaskData)
    (s : String) (nm : Option (List String)) (hk : taskFind arena k = some tdk) :
    resolveTaskRef (taskSet arena k v) s nm = resolveTaskRef arena s nm := by
  cases nm with
  | none => rfl
  | some l =>
    simp only [resolveTaskRef]
    rw [find?_congr_local _ _ l]
    intro n
    rw [taskFind_taskSet]
    by_cases he : k = n
    · subst he; rw [hk]; simp
    · rw [if_neg he]

theorem contributeDep_push (arena : TaskArena) (s : String) (nm : Option (List String))
    (app : Bool) (tgt : String) (td : TaskData) (subs : List String)
    (hres : resolveTaskRef arena s nm = .ok (some tgt))
    (hfind : taskFind arena tgt = some td)
    (hsubs : td.subtasks = some subs)
    (hnot : s ∉ td.deps) :
    contributeDep arena s nm app = .ok (taskSet arena tgt
      (if app then { td with deps := td.deps ++ [s], subtasks := some (subs ++ [s]) }
       else { td with deps := s :: td.deps, subtasks := some (s :: subs) })) := by
  simp only [contributeDep, hres, hfind, resolveSubtasksData, hsubs, Bind.bind, Except.bind,
    if_neg hnot]
  cases app <;> simp [hsubs]

theorem resolveSubtasks_deps (arena : TaskArena) (n : String) (a' : TaskArena)
    (h : resolveSubtasks arena n = .ok a') :
    ∀ t tdO tdN, taskFind arena t = some tdO → taskFind a' t = some tdN →
      tdN.deps = tdO.deps := by
  simp only [resolveSubtasks] at h
  cases hf : taskFind arena n with
  | none =>
    rw [hf] at h; simp at h; subst h
    intro t tdO tdN h1 h2
    rw [h1] at h2; injection h2 with h2; rw [h2]
  | some td =>
    rw [hf] at h
    rw [except_bind_ok] at h
    obtain ⟨td1, hsub, h⟩ := h
    simp only [Except.ok.injEq] at h
    subst h
    intro t tdO tdN h1 h2
    rw [taskFind_taskSet] at h2
    by_cases he : n = t
    · rw [if_pos he] at h2
      obtain rfl : td1 = tdN := by injection h2
      subst he
      obtain rfl : td = tdO := by rw [hf] at h1; injection h1
      exact (resolveSubtasksData_ok _ _ _ _ hsub).1
    · rw [if_neg he] at h2
      rw [h1] at h2
      injection h2 with h2
      rw [h2]

theorem contributeDep_deps (arena : TaskArena) (s : String) (nm : Option (List String))
    (app : Bool) (a' : TaskArena) (h : contributeDep arena s nm app = .ok a') :
    ∀ t tdO tdN, taskFind arena t = some tdO → taskFind a' t = some tdN →
      tdN.deps = tdO.deps ∨ tdN.deps = tdO.deps ++ [s] ∨ tdN.deps = s :: tdO.deps := by
  rcases contributeDep_cases _ _ _ _ _ h with rfl | ⟨tname, td, td1, hf, hmem, hsub, rfl⟩
  · intro t tdO tdN h1 h2
    rw [h1] at h2; injection h2 with h2; rw [h2]; left; rfl
  · intro t tdO tdN h1 h2
    rw [taskFind_taskSet] at h2
    by_cases he : tname = t
    · rw [if_pos he] at h2
      subst he
      have hTd : tdO = td := by rw [hf] at h1; injection h1 with h1; exact h1.symm
      subst hTd
      have hd1 : td1.deps = tdO.deps := (resolveSubtasksData_ok _ _ _ _ hsub).1
      cases app <;> simp only [Option.some.injEq] at h2 <;> subst h2 <;> simp [hd1]
    · rw [if_neg he] at h2
      rw [h1] at h2; injection h2 with h2; rw [h2]; left; rfl

/-- C2 counterexample: a task `T` whose append-target resolves to `T` itself
(and whose name is not yet among its own dependencies) is NOT a no-op — the
contribution appends `T` to its own dependency-name and subtask lists. -/
theorem selfAppendContributionMutates :
    contributeDep [("T", ⟨[], some ["T"], none, none⟩)] "T" (some ["T"]) true =
      .ok [("T", ⟨["T"], some ["T"], none, some ["T"]⟩)] ∧
    contributeDep [("T", ⟨[], some ["T"], none, none⟩)] "T" (some ["T"]) true ≠
      .ok [("T", ⟨[], some ["T"], none, none⟩)] := by
  refine ⟨rfl, fun hcon => ?_⟩
  have h2 : (Except.ok [("T", (⟨["T"], some ["T"], none, some ["T"]⟩ : TaskData))] :
      Except TErr TaskArena) = .ok [("T", (⟨[], some ["T"], none, none⟩ : TaskData))] := hcon
  simp at h2

/-- C2 (amended): processing a task's contribution is a no-op (the whole arena
is unchanged) whenever the resolved target task already lists the contributing
task's name among its dependency names; the self-target case alone is not a
no-op (see the counterexample). -/
theorem contributionNoopWhenNamePresent (arena : TaskArena) (s : String)
    (nm : Option (List String)) (app : Bool) (tname : String) (td : TaskData)
    (hres : resolveTaskRef arena s nm = .ok (some tname))
    (hfind : taskFind arena tname = some td)
    (hmem : s ∈ td.deps) :
    contributeDep arena s nm app = .ok arena := by
  simp [contributeDep, hres, hfind, hmem, Bind.bind, Except.bind]

/-- C2 witness: `B` appends to `A`, whose deps already contain `"B"`. -/
theorem contributionNoopWhenNamePresentWitness :
    contributeDep [("A", ⟨["B"], none, none, none⟩), ("B", ⟨[], some ["A"], none, none⟩)]
      "B" (some ["A"]) true =
      .ok [("A", ⟨["B"], none, none, none⟩), ("B", ⟨[], some ["A"], none, none⟩)] :=
  contributionNoopWhenNamePresent _ "B" (some ["A"]) true "A" ⟨["B"], none, none, none⟩
    (by rfl) (by rfl) (by decide)

/-- C3: starting from an index-aligned arena, subtask resolution, any
contribution operation, and the whole validation pass keep every task's
dependency-name list and subtask list index-aligned (`Aligned`), and the only
changes a single operation makes to a dependency list are no change, a push of
the contributing task's name at the end, or an insert at position zero. -/
theorem depsSubtasksAligned (arena : TaskArena) (hA : Aligned arena) :
    (∀ n a', resolveSubtasks arena n = .ok a' → Aligned a' ∧
      ∀ t tdO tdN, taskFind arena t = some tdO → taskFind a' t = some tdN →
        tdN.deps = tdO.deps) ∧
    (∀ s nm app a', contributeDep arena s nm app = .ok a' → Aligned a' ∧
      ∀ t tdO tdN, taskFind arena t = some tdO → taskFind a' t = some tdN →
        tdN.deps = tdO.deps ∨ tdN.deps = tdO.deps ++ [s] ∨ tdN.deps = s :: tdO.deps) ∧
    (∀ a', validateTasks arena = .ok a' → Aligned a') := by
  refine ⟨fun n a' h => ⟨resolveSubtasks_aligned _ _ _ hA h, resolveSubtasks_deps _ _ _ h⟩,
    fun s nm app a' h => ⟨contributeDep_aligned _ _ _ _ _ hA h, contributeDep_deps _ _ _ _ _ h⟩,
    fun a' h => validateTasks_aligned _ _ hA h⟩

/-- C3 witness: a concrete aligned arena stays aligned through `validateTasks`
(which here performs a self-append). -/
theorem depsSubtasksAlignedWitness :
    Aligned [("T", (⟨[], some ["T"], none, none⟩ : TaskData))] ∧
    validateTasks [("T", (⟨[], some ["T"], none, none⟩ : TaskData))] =
      .ok [("T", (⟨["T"], some ["T"], none, some ["T"]⟩ : TaskData))] ∧
    Aligned [("T", (⟨["T"], some ["T"], none, some ["T"]⟩ : TaskData))] := by
  have hA : Aligned [("T", (⟨[], some ["T"], none, none⟩ : TaskData))] := by
    intro n td h
    simp only [taskFind, alistFind] at h
    by_cases he : ("T" : String) = n
    · rw [if_pos (by simp [he])] at h
      injection h with h; rw [← h]; left; rfl
    · rw [if_neg (by simp [he])] at h; cases h
  refine ⟨hA, rfl, ?_⟩
  exact (depsSubtasksAligned _ hA).2.2 _ rfl

/-- C8: two tasks `t1` then `t2` appending to the same target leave the
target's dependency names ending `[..., t1, t2]` with the subtask list extended
identically; a prepend contribution inserts the contributing task's name and
object at position zero of both lists. -/
theorem contributionOrdering (arena : TaskArena) (t1 t2 tgt : String)
    (nm1 nm2 : Option (List String)) (td : TaskData) (subs : List String)
    (h1 : resolveTaskRef arena t1 nm1 = .ok (some tgt))
    (h2 : resolveTaskRef arena t2 nm2 = .ok (some tgt))
    (hfind : taskFind arena tgt = some td)
    (hsubs : td.subtasks = some subs)
    (hn1 : t1 ∉ td.deps) (hn2 : t2 ∉ td.deps) (hne : t2 ≠ t1) :
    (∃ a1 a2, contributeDep arena t1 nm1 true = .ok a1 ∧
      contributeDep a1 t2 nm2 true = .ok a2 ∧
      taskFind a1 tgt =
        some { td with deps := td.deps ++ [t1], subtasks := some (subs ++ [t1]) } ∧
      taskFind a2 tgt =
        some { td with deps := td.deps ++ [t1] ++ [t2],
                       subtasks := some (subs ++ [t1] ++ [t2]) }) ∧
    (∀ tp nmp, resolveTaskRef arena tp nmp = .ok (some tgt) → tp ∉ td.deps →
      ∃ a3, contributeDep arena tp nmp false = .ok a3 ∧
        taskFind a3 tgt = some { td with deps := tp :: td.deps, subtasks := some (tp :: subs) }) := by
  constructor
  · have hc1 := contributeDep_push arena t1 nm1 true tgt td subs h1 hfind hsubs hn1
    rw [if_pos rfl] at hc1
    set tdA : TaskData := { td with deps := td.deps ++ [t1], subtasks := some (subs ++ [t1]) }
    set a1 : TaskArena := taskSet arena tgt tdA
    have hfind1 : taskFind a1 tgt = some tdA := by
      rw [taskFind_taskSet, if_pos rfl]
    have hres2 : resolveTaskRef a1 t2 nm2 = .ok (some tgt) := by
      rw [resolveTaskRef_taskSet arena tgt tdA td t2 nm2 hfind]; exact h2
    have hn2A : t2 ∉ tdA.deps := by
      simp [tdA, hn2, hne]
    have hc2 := contributeDep_push a1 t2 nm2 true tgt tdA (subs ++ [t1]) hres2 hfind1 rfl hn2A
    rw [if_pos rfl] at hc2
    refine ⟨a1, _, hc1, hc2, hfind1, ?_⟩
    rw [taskFind_taskSet, if_pos rfl]
  · intro tp nmp hresp hnp
    have hc3 := contributeDep_push arena tp nmp false tgt td subs hresp hfind hsubs hnp
    rw [if_neg (by simp)] at hc3
    refine ⟨_, hc3, ?_⟩
    rw [taskFind_taskSet, if_pos rfl]

/-- C8 witness: `T1` then `T2` append to `Tgt`, yielding deps
`["T0", "T1", "T2"]`. -/
theorem contributionOrderingWitness :
    ∃ a1 a2,
      contributeDep [("Tgt", ⟨["T0"], none, none, some ["T0"]⟩),
        ("T1", ⟨[], some ["Tgt"], none, none⟩), ("T2", ⟨[], some ["Tgt"], none, none⟩)]
        "T1" (some ["Tgt"]) true = .ok a1 ∧
      contributeDep a1 "T2" (some ["Tgt"]) true = .ok a2 ∧
      taskFind a1 "Tgt" = some ⟨["T0", "T1"], none, none, some ["T0", "T1"]⟩ ∧
      taskFind a2 "Tgt" = some ⟨["T0", "T1", "T2"], none, none, some ["T0", "T1", "T2"]⟩ := by
  have h := (contributionOrdering
    [("Tgt", ⟨["T0"], none, none, some ["T0"]⟩), ("T1", ⟨[], some ["Tgt"], none, none⟩),
      ("T2", ⟨[], some ["Tgt"], none, none⟩)]
    "T1" "T2" "Tgt" (some ["Tgt"]) (some ["Tgt"]) ⟨["T0"], none, none, some ["T0"]⟩ ["T0"]
    (by rfl) (by rfl) (by rfl) rfl (by decide) (by decide) (by decide)).1
  obtain ⟨a1, a2, hc1, hc2, hf1, hf2⟩ := h
  exact ⟨a1, a2, hc1, hc2, hf1, hf2⟩

section FmtStrStep

variable (fuel : Nat) (model : Model) (selfName : String) (selfPath : Option String)
  (cache : Bool) (toFormat : String) (rf : List String) (path : Option String) (st : St)
  (pre nameChars suf : List Char)

theorem fmtStr_found_cyclic
    (hfind : findRef toFormat.data = some (pre, nameChars, suf))
    (hbase : (String.mk nameChars == BASE_DIR) = false)
    (hdot : nameChars.contains '.' = false)
    (hrf : rf.contains (String.mk nameChars) = true) :
    fmtStr (fuel+2) model selfName selfPath cache toFormat rf path st =
      .error (.cyclicRef (String.mk nameChars) selfName) := by
  have hdm : '.' ∉ nameChars := by simpa using hdot
  have hrfm : String.mk nameChars ∈ rf := by simpa using hrf
  simp [fmtStr, resolveToken, hfind, hbase, hdm, hrfm, Bind.bind, Except.bind]

theorem fmtStr_found_unknown
    (hfind : findRef toFormat.data = some (pre, nameChars, suf))
    (hbase : (String.mk nameChars == BASE_DIR) = false)
    (hdot : nameChars.contains '.' = false)
    (hrf : rf.contains (String.mk nameChars) = false)
    (hlk : lookupCfg model (String.mk nameChars) = none) :
    fmtStr (fuel+2) model selfName selfPath cache toFormat rf path st =
      .error (.unknownConfig (String.mk nameChars) selfName) := by
  have hdm : '.' ∉ nameChars := by simpa using hdot
  have hrfm : String.mk nameChars ∉ rf := by simpa using hrf
  simp [fmtStr, resolveToken, hfind, hbase, hdm, hrfm, hlk, Bind.bind, Except.bind]

theorem fmtStr_found_resolveError (cfg : Cfg) (e : Err)
    (hfind : findRef toFormat.data = some (pre, nameChars, suf))
    (hbase : (String.mk nameChars == BASE_DIR) = false)
    (hdot : nameChars.contains '.' = false)
    (hrf : rf.contains (String.mk nameChars) = false)
    (hlk : lookupCfg model (String.mk nameChars) = some cfg)
    (hres : resolveCfg fuel model cfg cache (some rf) st = .error e) :
    fmtStr (fuel+2) model selfName selfPath cache toFormat rf path st = .error e := by
  have hdm : '.' ∉ nameChars := by simpa using hdot
  have hrfm : String.mk nameChars ∉ rf := by simpa using hrf
  simp [fmtStr, resolveToken, hfind, hbase, hdm, hrfm, hlk, hres, Bind.bind, Except.bind]

theorem fmtStr_found_ok (cfg : Cfg) (rv : CVal) (st1 : St)
    (hfind : findRef toFormat.data = some (pre, nameChars, suf))
    (hbase : (String.mk nameChars == BASE_DIR) = false)
    (hdot : nameChars.contains '.' = false)
    (hrf : rf.contains (String.mk nameChars) = false)
    (hlk : lookupCfg model (String.mk nameChars) = some cfg)
    (hres : resolveCfg fuel model cfg cache (some rf) st = .ok (rv, st1)) :
    fmtStr (fuel+2) model selfName selfPath cache toFormat rf path st =
      (if pre.isEmpty && suf.isEmpty && !rv.isStr then .ok (rv, st1)
       else fmtStr (fuel+1) model selfName selfPath cache
         (String.mk (pre ++ (pyStr rv).data ++ suf)) rf path st1) := by
  have hdm : '.' ∉ nameChars := by simpa using hdot
  have hrfm : String.mk nameChars ∉ rf := by simpa using hrf
  simp [fmtStr, resolveToken, hfind, hbase, hdm, hrfm, hlk, hres, Bind.bind, Except.bind]

end FmtStrStep


theorem resolveCfg_static_str_error (fuel : Nat) (model : Model) (cfg : Cfg) (cache : Bool)
    (rf0 : Option (List String)) (st : St) (s : String) (e : Err)
    (hdata : cfg.data = .static (.str s))
    (hc : alistFind st.cacheMap cfg.name = none)
    (hfmt : fmtStr fuel model cfg.name cfg.path cache s (cfg.name :: rf0.getD []) none st =
      .error e) :
    resolveCfg (fuel+3) model cfg cache rf0 st = .error e := by
  simp [resolveCfg, getValue, fmt, hdata, hc, hfmt, Bind.bind, Except.bind]

theorem resolveCfg_static_str_ok (fuel : Nat) (model : Model) (cfg : Cfg) (cache : Bool)
    (rf0 : Option (List String)) (st : St) (s : String) (v : CVal) (st1 : St)
    (hdata : cfg.data = .static (.str s))
    (hc : alistFind st.cacheMap cfg.name = none)
    (hfmt : fmtStr fuel model cfg.name cfg.path cache s (cfg.name :: rf0.getD []) none st =
      .ok (v, st1)) :
    resolveCfg (fuel+3) model cfg cache rf0 st =
      .ok (v, if cache then ⟨alistSet st1.cacheMap cfg.name v, st1.resolverCalls⟩ else st1) := by
  cases cache <;>
    simp [resolveCfg, getValue, fmt, hdata, hc, hfmt, Bind.bind, Except.bind]

/-- C1 (amended): when the first reference token the scanner finds in `A`'s raw
string value names `B` and the first token in `B`'s raw value names `A` (both
plain names), resolving either node — here `A`, under any cache flag and any
state not caching the pair — fails hard with the cyclic-reference error,
produced because `a` is already in the ancestry list when the resolution of `B`
reaches its token. -/
theorem cyclicReferenceDetected (n : Nat) (model : Model) (cache : Bool) (st : St)
    (a b sA sB : String) (cfgA cfgB : Cfg) (preA sufA preB sufB : List Char)
    (ha : lookupCfg model a = some cfgA) (hb : lookupCfg model b = some cfgB)
    (hnA : cfgA.name = a) (hnB : cfgB.name = b)
    (hdA : cfgA.data = .static (.str sA)) (hdB : cfgB.data = .static (.str sB))
    (hfA : findRef sA.data = some (preA, b.data, sufA))
    (hfB : findRef sB.data = some (preB, a.data, sufB))
    (hab : a ≠ b)
    (hdotA : a.data.contains '.' = false) (hdotB : b.data.contains '.' = false)
    (hbaseA : (a == BASE_DIR) = false) (hbaseB : (b == BASE_DIR) = false)
    (hcA : alistFind st.cacheMap a = none) (hcB : alistFind st.cacheMap b = none) :
    resolveCfg (n+10) model cfgA cache none st = .error (.cyclicRef a b) := by
  obtain ⟨al⟩ := a
  obtain ⟨bl⟩ := b
  have hInner : fmtStr (n+2) model (String.mk bl) cfgB.path cache sB
      [String.mk bl, String.mk al] none st = .error (.cyclicRef (String.mk al) (String.mk bl)) :=
    fmtStr_found_cyclic n model (String.mk bl) cfgB.path cache sB
      [String.mk bl, String.mk al] none st preB al sufB hfB hbaseA hdotA (by simp)
  have hResB : resolveCfg (n+5) model cfgB cache (some [String.mk al]) st =
      .error (.cyclicRef (String.mk al) (String.mk bl)) := by
    refine resolveCfg_static_str_error (n+2) model cfgB cache (some [String.mk al]) st sB _
      hdB (by rw [hnB]; exact hcB) ?_
    rw [hnB]
    exact hInner
  have hOuter : fmtStr (n+7) model (String.mk al) cfgA.path cache sA
      [String.mk al] none st = .error (.cyclicRef (String.mk al) (String.mk bl)) := by
    refine fmtStr_found_resolveError (n+5) model (String.mk al) cfgA.path cache sA
      [String.mk al] none st preA bl sufA cfgB _ hfA hbaseB hdotB ?_ hb hResB
    simp [List.contains]
    exact fun hcon => hab (by rw [hcon])
  refine resolveCfg_static_str_error (n+7) model cfgA cache none st sA _
    hdA (by rw [hnA]; exact hcA) ?_
  rw [hnA]
  exact hOuter


/-- C1 counterexample: config `A`'s raw value contains the token for `B` and
`B`'s contains the token for `A`, yet resolving either node fails with
`UnknownConfigError` for the earlier unknown token `C`, not with the
cyclic-reference error the claim requires. -/
theorem cyclicClaimCounterexample :
    resolveName 20 cycExModel "A" true St.init = .error (.unknownConfig "C" "A") ∧
    resolveName 20 cycExModel "B" true St.init = .error (.unknownConfig "C" "A") ∧
    ∀ r s, Err.unknownConfig "C" "A" ≠ Err.cyclicRef r s := by
  refine ⟨rfl, rfl, fun r s h => Err.noConfusion h⟩

/-- C1 witness: the spec's concrete scenario `A = "$\x7bB\x7d"`, `B = "$\x7bA\x7d"`. -/
theorem cyclicReferenceDetectedWitness :
    resolveCfg 10 ⟨[("A", ⟨"A", none, .static (.str "$\x7bB\x7d")⟩),
        ("B", ⟨"B", none, .static (.str "$\x7bA\x7d")⟩)]⟩
      ⟨"A", none, .static (.str "$\x7bB\x7d")⟩ true none St.init =
      .error (.cyclicRef "A" "B") := by
  exact cyclicReferenceDetected 0
    ⟨[("A", ⟨"A", none, .static (.str "$\x7bB\x7d")⟩),
      ("B", ⟨"B", none, .static (.str "$\x7bA\x7d")⟩)]⟩ true St.init
    "A" "B" "$\x7bB\x7d" "$\x7bA\x7d" _ _ [] [] [] []
    rfl rfl rfl rfl rfl rfl rfl rfl (by decide) (by decide) (by decide)
    (by decide) (by decide) rfl rfl

/-- C4: a config node whose raw value is exactly one reference token resolves,
when the referenced config resolves to a non-string value `v`, to that raw
value `v` itself — type preserved, no string coercion. -/
theorem singleTokenPreservesType (n : Nat) (model : Model) (cache : Bool) (st st1 : St)
    (cfgR cfgL : Cfg) (s : String) (lChars : List Char) (v : CVal)
    (hdataR : cfgR.data = .static (.str s))
    (hcR : alistFind st.cacheMap cfgR.name = none)
    (hfind : findRef s.data = some ([], lChars, []))
    (hbase : (String.mk lChars == BASE_DIR) = false)
    (hdot : lChars.contains '.' = false)
    (hrf : [cfgR.name].contains (String.mk lChars) = false)
    (hlk : lookupCfg model (String.mk lChars) = some cfgL)
    (hres : resolveCfg n model cfgL cache (some [cfgR.name]) st = .ok (v, st1))
    (hv : v.isStr = false) :
    resolveCfg (n+5) model cfgR cache none st =
      .ok (v, if cache then ⟨alistSet st1.cacheMap cfgR.name v, st1.resolverCalls⟩ else st1) := by
  have hOuter : fmtStr (n+2) model cfgR.name cfgR.path cache s [cfgR.name] none st =
      .ok (v, st1) := by
    rw [fmtStr_found_ok n model cfgR.name cfgR.path cache s [cfgR.name] none st
      [] lChars [] cfgL v st1 hfind hbase hdot hrf hlk hres]
    simp [hv]
  refine resolveCfg_static_str_ok (n+2) model cfgR cache none st s v st1 hdataR hcR hOuter


/-- C4 witness: the spec's `L = [1,2,3]`, `R = "$\x7bL\x7d"` scenario resolves
`R` to the list, not its string form. -/
theorem singleTokenPreservesTypeWitness :
    resolveCfg 20 typePreserveModel ⟨"R", none, .static (.str "$\x7bL\x7d")⟩ true none St.init =
      .ok (.list [.int 1, .int 2, .int 3],
        ⟨[("L", .list [.int 1, .int 2, .int 3]), ("R", .list [.int 1, .int 2, .int 3])], 0⟩) := by
  exact singleTokenPreservesType 15 typePreserveModel true St.init
    ⟨[("L", .list [.int 1, .int 2, .int 3])], 0⟩
    ⟨"R", none, .static (.str "$\x7bL\x7d")⟩ ⟨"L", none, .static (.list [.int 1, .int 2, .int 3])⟩
    "$\x7bL\x7d" "L".data (.list [.int 1, .int 2, .int 3])
    rfl rfl rfl (by decide) (by decide) (by decide) rfl rfl rfl

/-- C10: the raw-non-string return rule applies to the partially substituted
remainder — for a string of two tokens where the first referent resolves to the
empty string and the second referent resolves to a non-string value `v`,
interpolation returns `v` itself, type preserved. -/
theorem remainderRawValueRule (n : Nat) (model : Model) (cache : Bool) (st st1 st2 : St)
    (cfgR cfgE cfgL : Cfg) (s : String) (eChars sufChars lChars : List Char) (v : CVal)
    (hdataR : cfgR.data = .static (.str s))
    (hcR : alistFind st.cacheMap cfgR.name = none)
    (hfindE : findRef s.data = some ([], eChars, sufChars))
    (hbaseE : (String.mk eChars == BASE_DIR) = false)
    (hdotE : eChars.contains '.' = false)
    (hrfE : [cfgR.name].contains (String.mk eChars) = false)
    (hlkE : lookupCfg model (String.mk eChars) = some cfgE)
    (hresE : resolveCfg (n+1) model cfgE cache (some [cfgR.name]) st = .ok (.str "", st1))
    (hfindL : findRef sufChars = some ([], lChars, []))
    (hbaseL : (String.mk lChars == BASE_DIR) = false)
    (hdotL : lChars.contains '.' = false)
    (hrfL : [cfgR.name].contains (String.mk lChars) = false)
    (hlkL : lookupCfg model (String.mk lChars) = some cfgL)
    (hresL : resolveCfg n model cfgL cache (some [cfgR.name]) st1 = .ok (v, st2))
    (hv : v.isStr = false) :
    resolveCfg (n+6) model cfgR cache none st =
      .ok (v, if cache then ⟨alistSet st2.cacheMap cfgR.name v, st2.resolverCalls⟩ else st2) := by
  have hTail : fmtStr (n+2) model cfgR.name cfgR.path cache (String.mk sufChars)
      [cfgR.name] none st1 = .ok (v, st2) := by
    rw [fmtStr_found_ok n model cfgR.name cfgR.path cache (String.mk sufChars) [cfgR.name]
      none st1 [] lChars [] cfgL v st2 hfindL hbaseL hdotL hrfL hlkL hresL]
    simp [hv]
  have hOuter : fmtStr (n+3) model cfgR.name cfgR.path cache s [cfgR.name] none st =
      .ok (v, st2) := by
    rw [fmtStr_found_ok (n+1) model cfgR.name cfgR.path cache s [cfgR.name] none st
      [] eChars sufChars cfgE (.str "") st1 hfindE hbaseE hdotE hrfE hlkE hresE]
    simp only [CVal.isStr, Bool.not_true, Bool.and_false, Bool.false_eq_true, if_false]
    simpa [pyStr] using hTail
  refine resolveCfg_static_str_ok (n+3) model cfgR cache none st s v st2 hdataR hcR hOuter


/-- C10 witness: `"$\x7bE\x7d$\x7bL\x7d"` with `E = ""` and `L = [1,2,3]`
resolves to the list `[1,2,3]`. -/
theorem remainderRawValueRuleWitness :
    resolveCfg 20 remainderModel ⟨"R2", none, .static (.str "$\x7bE\x7d$\x7bL\x7d")⟩
      true none St.init =
      .ok (.list [.int 1, .int 2, .int 3],
        ⟨[("E", .str ""), ("L", .list [.int 1, .int 2, .int 3]),
          ("R2", .list [.int 1, .int 2, .int 3])], 0⟩) := by
  exact remainderRawValueRule 14 remainderModel true St.init
    ⟨[("E", .str "")], 0⟩ ⟨[("E", .str ""), ("L", .list [.int 1, .int 2, .int 3])], 0⟩
    ⟨"R2", none, .static (.str "$\x7bE\x7d$\x7bL\x7d")⟩
    ⟨"E", none, .static (.str "")⟩ ⟨"L", none, .static (.list [.int 1, .int 2, .int 3])⟩
    "$\x7bE\x7d$\x7bL\x7d" "E".data "$\x7bL\x7d".data "L".data (.list [.int 1, .int 2, .int 3])
    rfl rfl rfl (by decide) (by decide) (by decide) rfl rfl
    (by decide) (by decide) (by decide) (by decide) rfl rfl rfl

theorem fmtStr_dotted_walkError (fuel : Nat) (model : Model) (selfName : String)
    (selfPath : Option String) (cache : Bool) (toFormat : String) (rf : List String)
    (path : Option String) (st : St) (pre nameChars suf : List Char)
    (mname : String) (segs : List String) (cfg : Cfg) (rv : CVal) (st1 : St) (e : Err)
    (hfind : findRef toFormat.data = some (pre, nameChars, suf))
    (hbase : (String.mk nameChars == BASE_DIR) = false)
    (hdot : nameChars.contains '.' = true)
    (hsplit : (splitOnDot nameChars).map String.mk = mname :: segs)
    (hrf : rf.contains mname = false)
    (hlk : lookupCfg model mname = some cfg)
    (hres : resolveCfg fuel model cfg cache (some rf) st = .ok (rv, st1))
    (hwalk : dotWalk selfName mname segs rv = .error e) :
    fmtStr (fuel+2) model selfName selfPath cache toFormat rf path st = .error e := by
  have hdm : '.' ∈ nameChars := by simpa using hdot
  have hrfm : mname ∉ rf := by simpa using hrf
  simp [fmtStr, resolveToken, hfind, hbase, hdm, hsplit, hrfm, hlk, hres, hwalk,
    Bind.bind, Except.bind]

theorem fmtStr_dotted_walkOk (fuel : Nat) (model : Model) (selfName : String)
    (selfPath : Option String) (cache : Bool) (toFormat : String) (rf : List String)
    (path : Option String) (st : St) (pre nameChars suf : List Char)
    (mname : String) (segs : List String) (cfg : Cfg) (rv : CVal) (st1 : St) (w : CVal)
    (hfind : findRef toFormat.data = some (pre, nameChars, suf))
    (hbase : (String.mk nameChars == BASE_DIR) = false)
    (hdot : nameChars.contains '.' = true)
    (hsplit : (splitOnDot nameChars).map String.mk = mname :: segs)
    (hrf : rf.contains mname = false)
    (hlk : lookupCfg model mname = some cfg)
    (hres : resolveCfg fuel model cfg cache (some rf) st = .ok (rv, st1))
    (hwalk : dotWalk selfName mname segs rv = .ok w) :
    fmtStr (fuel+2) model selfName selfPath cache toFormat rf path st =
      (if pre.isEmpty && suf.isEmpty && !w.isStr then .ok (w, st1)
       else fmtStr (fuel+1) model selfName selfPath cache
         (String.mk (pre ++ (pyStr w).data ++ suf)) rf path st1) := by
  have hdm : '.' ∈ nameChars := by simpa using hdot
  have hrfm : mname ∉ rf := by simpa using hrf
  simp [fmtStr, resolveToken, hfind, hbase, hdm, hsplit, hrfm, hlk, hres, hwalk,
    Bind.bind, Except.bind]

/-- C7: a single-token doted reference resolves the leading config name, then
walks the remaining segments through `dotWalk`, which applies each segment as a
dict key in order: when the walk succeeds with a non-string value the node
resolves to that nested value; when any intermediate value is not a dict, a
segment is empty, or a key is missing, `dotWalk` fails and the node's
resolution fails hard with that same error. -/
theorem dotPathResolution (n : Nat) (model : Model) (cache : Bool) (st st1 : St)
    (cfgS cfgM : Cfg) (s : String) (nameChars : List Char) (mname : String)
    (segs : List String) (mv : CVal)
    (hdataS : cfgS.data = .static (.str s))
    (hcS : alistFind st.cacheMap cfgS.name = none)
    (hfind : findRef s.data = some ([], nameChars, []))
    (hbase : (String.mk nameChars == BASE_DIR) = false)
    (hdot : nameChars.contains '.' = true)
    (hsplit : (splitOnDot nameChars).map String.mk = mname :: segs)
    (hrf : [cfgS.name].contains mname = false)
    (hlk : lookupCfg model mname = some cfgM)
    (hres : resolveCfg n model cfgM cache (some [cfgS.name]) st = .ok (mv, st1)) :
    (∀ e, dotWalk cfgS.name mname segs mv = .error e →
      resolveCfg (n+5) model cfgS cache none st = .error e) ∧
    (∀ w, dotWalk cfgS.name mname segs mv = .ok w → w.isStr = false →
      resolveCfg (n+5) model cfgS cache none st =
        .ok (w, if cache then ⟨alistSet st1.cacheMap cfgS.name w, st1.resolverCalls⟩ else st1)) := by
  constructor
  · intro e hwalk
    refine resolveCfg_static_str_error (n+2) model cfgS cache none st s e hdataS hcS ?_
    exact fmtStr_dotted_walkError n model cfgS.name cfgS.path cache s [cfgS.name] none st
      [] nameChars [] mname segs cfgM mv st1 e hfind hbase hdot hsplit hrf hlk hres hwalk
  · intro w hwalk hw
    refine resolveCfg_static_str_ok (n+2) model cfgS cache none st s w st1 hdataS hcS ?_
    show fmtStr (n+2) model cfgS.name cfgS.path cache s [cfgS.name] none st = _
    rw [fmtStr_dotted_walkOk n model cfgS.name cfgS.path cache s [cfgS.name] none st
      [] nameChars [] mname segs cfgM mv st1 w hfind hbase hdot hsplit hrf hlk hres hwalk]
    simp [hw]


/-- C7 witness: the spec's `M = {"a": {"b": 5}}`, `S = "$\x7bM.a.b\x7d"`
scenario resolves `S` to `5`. -/
theorem dotPathResolutionWitness :
    resolveCfg 20 dotModelEx ⟨"S", none, .static (.str "$\x7bM.a.b\x7d")⟩ true none St.init =
      .ok (.int 5, ⟨[("M", .dict [("a", .dict [("b", .int 5)])]), ("S", .int 5)], 0⟩) := by
  exact (dotPathResolution 15 dotModelEx true St.init
    ⟨[("M", .dict [("a", .dict [("b", .int 5)])])], 0⟩
    ⟨"S", none, .static (.str "$\x7bM.a.b\x7d")⟩
    ⟨"M", none, .static (.dict [("a", .dict [("b", .int 5)])])⟩
    "$\x7bM.a.b\x7d" "M.a.b".data "M" ["a", "b"] (.dict [("a", .dict [("b", .int 5)])])
    rfl rfl rfl (by decide) (by decide) (by decide) (by decide) rfl rfl).2
    (.int 5) rfl rfl


mutual

theorem fmt_state (fuel : Nat) (model : Model) (selfName : String) (selfPath : Option String)
    (cache : Bool) (candidate : CVal) (rf0 : Option (List String)) (path : Option String)
    (st : St) (v : CVal) (stF : St)
    (h : fmt fuel model selfName selfPath cache candidate rf0 path st = .ok (v, stF)) :
    st.resolverCalls ≤ stF.resolverCalls ∧ (cache = false → stF.cacheMap = st.cacheMap) := by
  match fuel with
  | 0 => simp [fmt] at h
  | fuel+1 =>
    cases candidate with
    | str s => exact fmtStr_state fuel model selfName selfPath cache s _ path st v stF h
    | int i =>
      simp only [fmt, Except.ok.injEq, Prod.mk.injEq] at h
      obtain ⟨-, rfl⟩ := h
      exact ⟨le_refl _, fun _ => rfl⟩
    | bool b =>
      simp only [fmt, Except.ok.injEq, Prod.mk.injEq] at h
      obtain ⟨-, rfl⟩ := h
      exact ⟨le_refl _, fun _ => rfl⟩
    | list items =>
      simp only [fmt] at h
      rw [except_bind_ok] at h
      obtain ⟨⟨out, st1⟩, h1, h2⟩ := h
      simp only [Except.ok.injEq, Prod.mk.injEq] at h2
      obtain ⟨-, rfl⟩ := h2
      exact fmtItems_state fuel model selfName selfPath cache items _ path st out st1 h1
    | dict entries =>
      simp only [fmt] at h
      rw [except_bind_ok] at h
      obtain ⟨⟨out, st1⟩, h1, h2⟩ := h
      simp only [Except.ok.injEq, Prod.mk.injEq] at h2
      obtain ⟨-, rfl⟩ := h2
      exact fmtEntries_state fuel model selfName selfPath cache entries _ path st out st1 h1

theorem fmtItems_state (fuel : Nat) (model : Model) (selfName : String)
    (selfPath : Option String) (cache : Bool) (items : List CVal) (rf : List String)
    (path : Option String) (st : St) (out : List CVal) (stF : St)
    (h : fmtItems fuel model selfName selfPath cache items rf path st = .ok (out, stF)) :
    st.resolverCalls ≤ stF.resolverCalls ∧ (cache = false → stF.cacheMap = st.cacheMap) := by
  match fuel with
  | 0 => simp [fmtItems] at h
  | fuel+1 =>
    cases items with
    | nil =>
      simp only [fmtItems, Except.ok.injEq, Prod.mk.injEq] at h
      obtain ⟨-, rfl⟩ := h
      exact ⟨le_refl _, fun _ => rfl⟩
    | cons item rest =>
      simp only [fmtItems] at h
      rw [except_bind_ok] at h
      obtain ⟨⟨v1, st1⟩, h1, h⟩ := h
      rw [except_bind_ok] at h
      obtain ⟨⟨vs, st2⟩, h2, h3⟩ := h
      simp only [Except.ok.injEq, Prod.mk.injEq] at h3
      obtain ⟨-, rfl⟩ := h3
      obtain ⟨m1, c1⟩ := fmt_state fuel model selfName selfPath cache item _ path st v1 st1 h1
      obtain ⟨m2, c2⟩ :=
        fmtItems_state fuel model selfName selfPath cache rest rf path st1 vs st2 h2
      exact ⟨le_trans m1 m2, fun hc => (c2 hc).trans (c1 hc)⟩

theorem fmtEntries_state (fuel : Nat) (model : Model) (selfName : String)
    (selfPath : Option String) (cache : Bool) (entries : List (String × CVal))
    (rf : List String) (path : Option String) (st : St) (out : List (String × CVal)) (stF : St)
    (h : fmtEntries fuel model selfName selfPath cache entries rf path st = .ok (out, stF)) :
    st.resolverCalls ≤ stF.resolverCalls ∧ (cache = false → stF.cacheMap = st.cacheMap) := by
  match fuel with
  | 0 => simp [fmtEntries] at h
  | fuel+1 =>
    cases entries with
    | nil =>
      simp only [fmtEntries, Except.ok.injEq, Prod.mk.injEq] at h
      obtain ⟨-, rfl⟩ := h
      exact ⟨le_refl _, fun _ => rfl⟩
    | cons kv rest =>
      obtain ⟨k, v0⟩ := kv
      simp only [fmtEntries] at h
      rw [except_bind_ok] at h
      obtain ⟨⟨v1, st1⟩, h1, h⟩ := h
      rw [except_bind_ok] at h
      obtain ⟨⟨vs, st2⟩, h2, h3⟩ := h
      simp only [Except.ok.injEq, Prod.mk.injEq] at h3
      obtain ⟨-, rfl⟩ := h3
      obtain ⟨m1, c1⟩ := fmt_state fuel model selfName selfPath cache v0 _ path st v1 st1 h1
      obtain ⟨m2, c2⟩ :=
        fmtEntries_state fuel model selfName selfPath cache rest rf path st1 vs st2 h2
      exact ⟨le_trans m1 m2, fun hc => (c2 hc).trans (c1 hc)⟩

theorem fmtStr_state (fuel : Nat) (model : Model) (selfName : String)
    (selfPath : Option String) (cache : Bool) (toFormat : String) (rf : List String)
    (path : Option String) (st : St) (v : CVal) (stF : St)
    (h : fmtStr fuel model selfName selfPath cache toFormat rf path st = .ok (v, stF)) :
    st.resolverCalls ≤ stF.resolverCalls ∧ (cache = false → stF.cacheMap = st.cacheMap) := by
  match fuel with
  | 0 => simp [fmtStr] at h
  | fuel+1 =>
    simp only [fmtStr] at h
    cases hfind : findRef toFormat.data with
    | none =>
      rw [hfind] at h
      simp only [Except.ok.injEq, Prod.mk.injEq] at h
      obtain ⟨-, rfl⟩ := h
      exact ⟨le_refl _, fun _ => rfl⟩
    | some pns =>
      obtain ⟨pre, nameChars, suf⟩ := pns
      rw [hfind] at h
      simp only at h
      rw [except_bind_ok] at h
      obtain ⟨⟨rv, st1⟩, h1, h2⟩ := h
      obtain ⟨m1, c1⟩ :=
        resolveToken_state fuel model selfName selfPath cache rf path st nameChars rv st1 h1
      by_cases hone : (pre.isEmpty && suf.isEmpty && !rv.isStr) = true
      · rw [if_pos hone] at h2
        simp only [Except.ok.injEq, Prod.mk.injEq] at h2
        obtain ⟨-, rfl⟩ := h2
        exact ⟨m1, c1⟩
      · rw [if_neg hone] at h2
        obtain ⟨m2, c2⟩ :=
          fmtStr_state fuel model selfName selfPath cache _ rf path st1 v stF h2
        exact ⟨le_trans m1 m2, fun hc => (c2 hc).trans (c1 hc)⟩

theorem resolveToken_state (fuel : Nat) (model : Model) (selfName : String)
    (selfPath : Option String) (cache : Bool) (rf : List String) (path : Option String)
    (st : St) (nameChars : List Char) (v : CVal) (stF : St)
    (h : resolveToken fuel model selfName selfPath cache rf path st nameChars = .ok (v, stF)) :
    st.resolverCalls ≤ stF.resolverCalls ∧ (cache = false → stF.cacheMap = st.cacheMap) := by
  match fuel with
  | 0 => simp [resolveToken] at h
  | fuel+1 =>
    have key : ∀ (cfgName : String) (segments : Option (List String)),
        ((match lookupCfg model cfgName with
          | none => Except.error (Err.unknownConfig cfgName selfName)
          | some cfg => do
              let (rv, st1) ← resolveCfg fuel model cfg cache (some rf) st
              match segments with
              | none => Except.ok (rv, st1)
              | some segs => do
                  let w ← dotWalk selfName cfgName segs rv
                  Except.ok (w, st1)) = Except.ok (v, stF)) →
        st.resolverCalls ≤ stF.resolverCalls ∧ (cache = false → stF.cacheMap = st.cacheMap) := by
      intro cfgName segments hm
      cases hlk : lookupCfg model cfgName with
      | none => rw [hlk] at hm; simp at hm
      | some cfg =>
        rw [hlk] at hm
        simp only at hm
        rw [except_bind_ok] at hm
        obtain ⟨⟨rv, st1⟩, hres, hrest⟩ := hm
        have base := resolveCfg_state fuel model cfg cache (some rf) st rv st1 hres
        cases segments with
        | none =>
          simp only [Except.ok.injEq, Prod.mk.injEq] at hrest
          obtain ⟨-, rfl⟩ := hrest
          exact base
        | some segs =>
          simp only at hrest
          rw [except_bind_ok] at hrest
          obtain ⟨w, hw, h3⟩ := hrest
          simp only [Except.ok.injEq, Prod.mk.injEq] at h3
          obtain ⟨-, rfl⟩ := h3
          exact base
    simp only [resolveToken] at h
    by_cases hbase : (String.mk nameChars == BASE_DIR) = true
    · rw [if_pos hbase] at h
      simp only [Except.ok.injEq, Prod.mk.injEq] at h
      obtain ⟨-, rfl⟩ := h
      exact ⟨le_refl _, fun _ => rfl⟩
    · rw [if_neg hbase] at h
      by_cases hdot : (String.mk nameChars).data.contains '.' = true
      · rw [if_pos hdot] at h
        cases hsplit : (splitOnDot (String.mk nameChars).data).map String.mk with
        | nil =>
          rw [hsplit] at h
          simp only at h
          by_cases hrf : rf.contains (String.mk nameChars) = true
          · rw [if_pos hrf] at h; simp at h
          · rw [if_neg hrf] at h
            exact key (String.mk nameChars) none h
        | cons s0 rest =>
          rw [hsplit] at h
          simp only at h
          by_cases hrf : rf.contains s0 = true
          · rw [if_pos hrf] at h; simp at h
          · rw [if_neg hrf] at h
            exact key s0 (some rest) h
      · rw [if_neg hdot] at h
        simp only at h
        by_cases hrf : rf.contains (String.mk nameChars) = true
        · rw [if_pos hrf] at h; simp at h
        · rw [if_neg hrf] at h
          exact key (String.mk nameChars) none h

theorem resolveCfg_state (fuel : Nat) (model : Model) (cfg : Cfg) (cache0 : Bool)
    (rf : Option (List String)) (st : St) (v : CVal) (stF : St)
    (h : resolveCfg fuel model cfg cache0 rf st = .ok (v, stF)) :
    st.resolverCalls ≤ stF.resolverCalls ∧ (cache0 = false → stF.cacheMap = st.cacheMap) := by
  match fuel with
  | 0 => simp [resolveCfg] at h
  | fuel+1 =>
    have key : ∀ c : Bool, (cache0 = false → c = false) →
        ((do
          let (out, st1) ← getValue fuel model cfg c rf st
          if c then Except.ok (out, (⟨alistSet st1.cacheMap cfg.name out,
            st1.resolverCalls⟩ : St))
          else Except.ok (out, st1)) = Except.ok (v, stF)) →
        st.resolverCalls ≤ stF.resolverCalls ∧ (cache0 = false → stF.cacheMap = st.cacheMap) := by
      intro c hcf hm
      rw [except_bind_ok] at hm
      obtain ⟨⟨out, st1⟩, h1, h2⟩ := hm
      obtain ⟨m1, c1⟩ := getValue_state fuel model cfg c rf st out st1 h1
      cases hc : c with
      | true =>
        rw [hc] at h2
        simp only [if_true, Except.ok.injEq, Prod.mk.injEq] at h2
        obtain ⟨-, rfl⟩ := h2
        refine ⟨m1, fun h0 => absurd (hcf h0) (by rw [hc]; simp)⟩
      | false =>
        rw [hc] at h2
        simp only [Bool.false_eq_true, if_false, Except.ok.injEq, Prod.mk.injEq] at h2
        obtain ⟨-, rfl⟩ := h2
        exact ⟨m1, fun h0 => c1 (by rw [hc])⟩
    simp only [resolveCfg] at h
    have hcf : cache0 = false →
        (match cfg.data with
          | .resolved r => cache0 && !r.is_volatile
          | _ => cache0) = false := by
      intro h0
      rw [h0]
      cases cfg.data <;> simp
    cases hfind : alistFind st.cacheMap cfg.name with
    | some cv =>
      rw [hfind] at h
      cases hc : (match cfg.data with
        | .resolved r => cache0 && !r.is_volatile
        | _ => cache0) with
      | true =>
        rw [hc] at h
        simp only [Except.ok.injEq, Prod.mk.injEq] at h
        obtain ⟨-, rfl⟩ := h
        exact ⟨le_refl _, fun h0 => absurd (hcf h0) (by rw [hc]; simp)⟩
      | false =>
        rw [hc] at h
        exact key false (fun _ => rfl) h
    | none =>
      rw [hfind] at h
      cases hc : (match cfg.data with
        | .resolved r => cache0 && !r.is_volatile
        | _ => cache0) with
      | true =>
        rw [hc] at h
        exact key true (fun h0 => absurd (hcf h0) (by rw [hc]; simp)) h
      | false =>
        rw [hc] at h
        exact key false (fun _ => rfl) h

theorem getValue_state (fuel : Nat) (model : Model) (cfg : Cfg) (cache : Bool)
    (rf : Option (List String)) (st : St) (v : CVal) (stF : St)
    (h : getValue fuel model cfg cache rf st = .ok (v, stF)) :
    st.resolverCalls ≤ stF.resolverCalls ∧ (cache = false → stF.cacheMap = st.cacheMap) := by
  match fuel with
  | 0 => simp [getValue] at h
  | fuel+1 =>
    cases hdata : cfg.data with
    | static sv =>
      simp only [getValue, hdata] at h
      exact fmt_state fuel model cfg.name cfg.path cache sv rf none st v stF h
    | resolved r =>
      simp only [getValue, hdata] at h
      by_cases hty : isinstanceOf (r.get_value st.resolverCalls) r.get_type = true
      · rw [if_pos hty] at h
        cases hfmt : fmt fuel model cfg.name cfg.path cache (r.get_value st.resolverCalls) rf
            none ⟨st.cacheMap, st.resolverCalls + 1⟩ with
        | error e => rw [hfmt] at h; simp at h
        | ok p =>
          obtain ⟨fv, st1⟩ := p
          rw [hfmt] at h
          simp only [Except.ok.injEq, Prod.mk.injEq] at h
          obtain ⟨-, rfl⟩ := h
          obtain ⟨m1, c1⟩ := fmt_state fuel model cfg.name cfg.path cache
            (r.get_value st.resolverCalls) rf none ⟨st.cacheMap, st.resolverCalls + 1⟩ fv st1 hfmt
          exact ⟨le_trans (Nat.le_succ _) m1, fun hc => c1 hc⟩
      · rw [if_neg hty] at h
        simp at h
    | listCfg holders =>
      simp only [getValue, hdata] at h
      rw [except_bind_ok] at h
      obtain ⟨⟨out, st1⟩, h1, h2⟩ := h
      simp only [Except.ok.injEq, Prod.mk.injEq] at h2
      obtain ⟨-, rfl⟩ := h2
      exact mergeListHolders_state fuel model cfg holders cache rf [] st out st1 h1
    | dictCfg holders =>
      simp only [getValue, hdata] at h
      rw [except_bind_ok] at h
      obtain ⟨⟨out, st1⟩, h1, h2⟩ := h
      simp only [Except.ok.injEq, Prod.mk.injEq] at h2
      obtain ⟨-, rfl⟩ := h2
      exact mergeDictHolders_state fuel model cfg holders cache rf [] st out st1 h1

theorem traverseList_state (fuel : Nat) (model : Model) (cfg : Cfg) (items : List CVal)
    (out0 : List CVal) (cache : Bool) (rf : Option (List String)) (holder : Holder) (st : St)
    (out : List CVal) (stF : St)
    (h : traverseList fuel model cfg items out0 cache rf holder st = .ok (out, stF)) :
    st.resolverCalls ≤ stF.resolverCalls ∧ (cache = false → stF.cacheMap = st.cacheMap) := by
  match fuel with
  | 0 => simp [traverseList] at h
  | fuel+1 =>
    cases items with
    | nil =>
      simp only [traverseList, Except.ok.injEq, Prod.mk.injEq] at h
      obtain ⟨-, rfl⟩ := h
      exact ⟨le_refl _, fun _ => rfl⟩
    | cons item rest =>
      simp only [traverseList] at h
      rw [except_bind_ok] at h
      obtain ⟨⟨fi, st1⟩, h1, h2⟩ := h
      obtain ⟨m1, c1⟩ :=
        fmt_state fuel model cfg.name cfg.path cache item rf holder.path st fi st1 h1
      cases fi with
      | list subitems =>
        simp only at h2
        rw [except_bind_ok] at h2
        obtain ⟨⟨out1, st2⟩, h3, h4⟩ := h2
        obtain ⟨m3, c3⟩ :=
          traverseList_state fuel model cfg subitems out0 cache rf holder st1 out1 st2 h3
        obtain ⟨m4, c4⟩ :=
          traverseList_state fuel model cfg rest out1 cache rf holder st2 out stF h4
        exact ⟨le_trans m1 (le_trans m3 m4), fun hc => ((c4 hc).trans (c3 hc)).trans (c1 hc)⟩
      | str s =>
        obtain ⟨m4, c4⟩ := traverseList_state fuel model cfg rest (out0 ++ [.str s]) cache rf
          holder st1 out stF h2
        exact ⟨le_trans m1 m4, fun hc => (c4 hc).trans (c1 hc)⟩
      | int i =>
        obtain ⟨m4, c4⟩ := traverseList_state fuel model cfg rest (out0 ++ [.int i]) cache rf
          holder st1 out stF h2
        exact ⟨le_trans m1 m4, fun hc => (c4 hc).trans (c1 hc)⟩
      | bool b =>
        obtain ⟨m4, c4⟩ := traverseList_state fuel model cfg rest (out0 ++ [.bool b]) cache rf
          holder st1 out stF h2
        exact ⟨le_trans m1 m4, fun hc => (c4 hc).trans (c1 hc)⟩
      | dict es =>
        obtain ⟨m4, c4⟩ := traverseList_state fuel model cfg rest (out0 ++ [.dict es]) cache rf
          holder st1 out stF h2
        exact ⟨le_trans m1 m4, fun hc => (c4 hc).trans (c1 hc)⟩

theorem traverseDict_state (fuel : Nat) (model : Model) (cfg : Cfg)
    (entries : List (String × CVal)) (out0 : List (String × CVal)) (cache : Bool)
    (rf : Option (List String)) (holder : Holder) (st : St)
    (out : List (String × CVal)) (stF : St)
    (h : traverseDict fuel model cfg entries out0 cache rf holder st = .ok (out, stF)) :
    st.resolverCalls ≤ stF.resolverCalls ∧ (cache = false → stF.cacheMap = st.cacheMap) := by
  match fuel with
  | 0 => simp [traverseDict] at h
  | fuel+1 =>
    cases entries with
    | nil =>
      simp only [traverseDict, Except.ok.injEq, Prod.mk.injEq] at h
      obtain ⟨-, rfl⟩ := h
      exact ⟨le_refl _, fun _ => rfl⟩
    | cons kv rest =>
      obtain ⟨k, v0⟩ := kv
      simp only [traverseDict] at h
      rw [except_bind_ok] at h
      obtain ⟨⟨fi, st1⟩, h1, h2⟩ := h
      obtain ⟨m1, c1⟩ :=
        fmt_state fuel model cfg.name cfg.path cache v0 rf holder.path st fi st1 h1
      cases fi with
      | dict fentries =>
        simp only at h2
        rw [except_bind_ok] at h2
        obtain ⟨cur, hcur, h2⟩ := h2
        rw [except_bind_ok] at h2
        obtain ⟨⟨merged, st2⟩, h3, h4⟩ := h2
        obtain ⟨m3, c3⟩ :=
          traverseDict_state fuel model cfg fentries cur cache rf holder st1 merged st2 h3
        obtain ⟨m4, c4⟩ := traverseDict_state fuel model cfg rest
          (alistSet out0 k (CVal.dict merged)) cache rf holder st2 out stF h4
        exact ⟨le_trans m1 (le_trans m3 m4), fun hc => ((c4 hc).trans (c3 hc)).trans (c1 hc)⟩
      | list fitems =>
        simp only at h2
        rw [except_bind_ok] at h2
        obtain ⟨cur, hcur, h2⟩ := h2
        rw [except_bind_ok] at h2
        obtain ⟨⟨merged, st2⟩, h3, h4⟩ := h2
        obtain ⟨m3, c3⟩ :=
          traverseList_state fuel model cfg fitems cur cache rf holder st1 merged st2 h3
        obtain ⟨m4, c4⟩ := traverseDict_state fuel model cfg rest
          (alistSet out0 k (CVal.list merged)) cache rf holder st2 out stF h4
        exact ⟨le_trans m1 (le_trans m3 m4), fun hc => ((c4 hc).trans (c3 hc)).trans (c1 hc)⟩
      | str s =>
        obtain ⟨m4, c4⟩ := traverseDict_state fuel model cfg rest
          (alistSet out0 k (CVal.str s)) cache rf holder st1 out stF h2
        exact ⟨le_trans m1 m4, fun hc => (c4 hc).trans (c1 hc)⟩
      | int i =>
        obtain ⟨m4, c4⟩ := traverseDict_state fuel model cfg rest
          (alistSet out0 k (CVal.int i)) cache rf holder st1 out stF h2
        exact ⟨le_trans m1 m4, fun hc => (c4 hc).trans (c1 hc)⟩
      | bool b =>
        obtain ⟨m4, c4⟩ := traverseDict_state fuel model cfg rest
          (alistSet out0 k (CVal.bool b)) cache rf holder st1 out stF h2
        exact ⟨le_trans m1 m4, fun hc => (c4 hc).trans (c1 hc)⟩

theorem mergeListHolders_state (fuel : Nat) (model : Model) (cfg : Cfg)
    (holders : List Holder) (cache : Bool) (rf : Option (List String)) (acc : List CVal)
    (st : St) (out : List CVal) (stF : St)
    (h : mergeListHolders fuel model cfg holders cache rf acc st = .ok (out, stF)) :
    st.resolverCalls ≤ stF.resolverCalls ∧ (cache = false → stF.cacheMap = st.cacheMap) := by
  match fuel with
  | 0 => simp [mergeListHolders] at h
  | fuel+1 =>
    cases holders with
    | nil =>
      simp only [mergeListHolders, Except.ok.injEq, Prod.mk.injEq] at h
      obtain ⟨-, rfl⟩ := h
      exact ⟨le_refl _, fun _ => rfl⟩
    | cons hd rest =>
      simp only [mergeListHolders] at h
      rw [except_bind_ok] at h
      obtain ⟨⟨hv, st1⟩, h1, h2⟩ := h
      obtain ⟨m1, c1⟩ :=
        fmt_state fuel model hd.name hd.path cache hd.staticValue none none st hv st1 h1
      rw [except_bind_ok] at h2
      obtain ⟨items, hitems, h2⟩ := h2
      rw [except_bind_ok] at h2
      obtain ⟨⟨acc1, st2⟩, h3, h4⟩ := h2
      obtain ⟨m3, c3⟩ := traverseList_state fuel model cfg items acc cache rf hd st1 acc1 st2 h3
      obtain ⟨m4, c4⟩ :=
        mergeListHolders_state fuel model cfg rest cache rf acc1 st2 out stF h4
      exact ⟨le_trans m1 (le_trans m3 m4), fun hc => ((c4 hc).trans (c3 hc)).trans (c1 hc)⟩

theorem mergeDictHolders_state (fuel : Nat) (model : Model) (cfg : Cfg)
    (holders : List Holder) (cache : Bool) (rf : Option (List String))
    (acc : List (String × CVal)) (st : St) (out : List (String × CVal)) (stF : St)
    (h : mergeDictHolders fuel model cfg holders cache rf acc st = .ok (out, stF)) :
    st.resolverCalls ≤ stF.resolverCalls ∧ (cache = false → stF.cacheMap = st.cacheMap) := by
  match fuel with
  | 0 => simp [mergeDictHolders] at h
  | fuel+1 =>
    cases holders with
    | nil =>
      simp only [mergeDictHolders, Except.ok.injEq, Prod.mk.injEq] at h
      obtain ⟨-, rfl⟩ := h
      exact ⟨le_refl _, fun _ => rfl⟩
    | cons hd rest =>
      simp only [mergeDictHolders] at h
      rw [except_bind_ok] at h
      obtain ⟨⟨hv, st1⟩, h1, h2⟩ := h
      obtain ⟨m1, c1⟩ :=
        fmt_state fuel model hd.name hd.path cache hd.staticValue none none st hv st1 h1
      rw [except_bind_ok] at h2
      obtain ⟨entries, hentries, h2⟩ := h2
      rw [except_bind_ok] at h2
      obtain ⟨⟨acc1, st2⟩, h3, h4⟩ := h2
      obtain ⟨m3, c3⟩ := traverseDict_state fuel model cfg entries acc cache rf hd st1 acc1 st2 h3
      obtain ⟨m4, c4⟩ :=
        mergeDictHolders_state fuel model cfg rest cache rf acc1 st2 out stF h4
      exact ⟨le_trans m1 (le_trans m3 m4), fun hc => ((c4 hc).trans (c3 hc)).trans (c1 hc)⟩

end

theorem getValue_resolved_calls (fuel : Nat) (model : Model) (cfg : Cfg) (r : Resolver)
    (cache : Bool) (rf : Option (List String)) (st : St) (v : CVal) (stF : St)
    (hr : cfg.data = .resolved r)
    (h : getValue fuel model cfg cache rf st = .ok (v, stF)) :
    st.resolverCalls < stF.resolverCalls := by
  match fuel with
  | 0 => simp [getValue] at h
  | fuel+1 =>
    simp only [getValue, hr] at h
    by_cases hty : isinstanceOf (r.get_value st.resolverCalls) r.get_type = true
    · rw [if_pos hty] at h
      cases hfmt : fmt fuel model cfg.name cfg.path cache (r.get_value st.resolverCalls) rf
          none ⟨st.cacheMap, st.resolverCalls + 1⟩ with
      | error e => rw [hfmt] at h; simp at h
      | ok p =>
        obtain ⟨fv, st1⟩ := p
        rw [hfmt] at h
        simp only [Except.ok.injEq, Prod.mk.injEq] at h
        obtain ⟨-, rfl⟩ := h
        have := (fmt_state fuel model cfg.name cfg.path cache (r.get_value st.resolverCalls)
          rf none ⟨st.cacheMap, st.resolverCalls + 1⟩ fv st1 hfmt).1
        exact lt_of_lt_of_le (Nat.lt_succ_self _) this
    · rw [if_neg hty] at h
      simp at h

/-- C9: for a Resolved config whose resolver reports volatile, resolving with
caching requested behaves exactly like resolving with caching disabled; every
successful resolve leaves the whole cache map untouched (so no value is ever
stored for the node) and strictly increases the resolver call count (the value
is recomputed through the resolver and the interpolator, not served from a
cache — even when a stale cache entry exists). -/
theorem volatileNeverCached (fuel : Nat) (model : Model) (cfg : Cfg) (r : Resolver)
    (rf : Option (List String)) (st : St)
    (hr : cfg.data = .resolved r) (hvol : r.is_volatile = true) :
    resolveCfg fuel model cfg true rf st = resolveCfg fuel model cfg false rf st ∧
    (∀ v stF, resolveCfg fuel model cfg true rf st = .ok (v, stF) →
      stF.cacheMap = st.cacheMap ∧ st.resolverCalls < stF.resolverCalls) := by
  constructor
  · match fuel with
    | 0 => rfl
    | fuel+1 => simp only [resolveCfg, hr, hvol, Bool.not_true, Bool.and_false]
  · intro v stF h
    match fuel with
    | 0 => simp [resolveCfg] at h
    | fuel+1 =>
      simp only [resolveCfg, hr, hvol, Bool.not_true, Bool.and_false] at h
      cases hfind : alistFind st.cacheMap cfg.name with
      | some cv =>
        rw [hfind] at h
        simp only at h
        rw [except_bind_ok] at h
        obtain ⟨⟨out, st1⟩, h1, h2⟩ := h
        simp only [Bool.false_eq_true, if_false, Except.ok.injEq, Prod.mk.injEq] at h2
        obtain ⟨-, rfl⟩ := h2
        exact ⟨(getValue_state fuel model cfg false rf st out st1 h1).2 rfl,
          getValue_resolved_calls fuel model cfg r false rf st out st1 hr h1⟩
      | none =>
        rw [hfind] at h
        simp only at h
        rw [except_bind_ok] at h
        obtain ⟨⟨out, st1⟩, h1, h2⟩ := h
        simp only [Bool.false_eq_true, if_false, Except.ok.injEq, Prod.mk.injEq] at h2
        obtain ⟨-, rfl⟩ := h2
        exact ⟨(getValue_state fuel model cfg false rf st out st1 h1).2 rfl,
          getValue_resolved_calls fuel model cfg r false rf st out st1 hr h1⟩


/-- C9 witness: a volatile resolved config with a pre-seeded (stale) cache
entry recomputes through the resolver and leaves the cache untouched. -/
theorem volatileNeverCachedWitness :
    resolveCfg 20 volModelEx vCfgEx true none ⟨[("V", .int 99)], 5⟩ =
      resolveCfg 20 volModelEx vCfgEx false none ⟨[("V", .int 99)], 5⟩ ∧
    ((⟨[("V", .int 99)], 6⟩ : St).cacheMap = ((⟨[("V", .int 99)], 5⟩ : St)).cacheMap ∧
      (⟨[("V", .int 99)], 5⟩ : St).resolverCalls < (⟨[("V", .int 99)], 6⟩ : St).resolverCalls) := by
  have h := volatileNeverCached 20 volModelEx vCfgEx volResEx none ⟨[("V", .int 99)], 5⟩ rfl rfl
  exact ⟨h.1, h.2 (.int 5) ⟨[("V", .int 99)], 6⟩ rfl⟩



mutual

theorem fmt_refFree (fuel : Nat) (model : Model) (selfName : String)
    (selfPath : Option String) (cache : Bool) (v : CVal) (rf0 : Option (List String))
    (path : Option String) (st : St)
    (hrf : refFree v = true) (hfuel : fmtFuel v ≤ fuel) :
    fmt fuel model selfName selfPath cache v rf0 path st = .ok (v, st) := by
  match fuel with
  | 0 => cases v <;> simp [fmtFuel] at hfuel
  | fuel+1 =>
    cases v with
    | str s =>
      simp only [fmt]
      match fuel, hfuel with
      | fuel+1, _ =>
        have hnone : findRef s.data = none := by
          simpa [refFree, Option.isNone_iff_eq_none] using hrf
        simp [fmtStr, hnone]
    | int i => simp [fmt]
    | bool b => simp [fmt]
    | list xs =>
      simp only [fmt]
      rw [fmtItems_refFree fuel model selfName selfPath cache xs _ path st
        (by simpa [refFree] using hrf) (by simp [fmtFuel] at hfuel; omega)]
      simp [Bind.bind, Except.bind]
    | dict es =>
      simp only [fmt]
      rw [fmtEntries_refFree fuel model selfName selfPath cache es _ path st
        (by simpa [refFree] using hrf) (by simp [fmtFuel] at hfuel; omega)]
      simp [Bind.bind, Except.bind]

theorem fmtItems_refFree (fuel : Nat) (model : Model) (selfName : String)
    (selfPath : Option String) (cache : Bool) (items : List CVal) (rf : List String)
    (path : Option String) (st : St)
    (hrf : refFreeItems items = true) (hfuel : fmtItemsFuel items ≤ fuel) :
    fmtItems fuel model selfName selfPath cache items rf path st = .ok (items, st) := by
  match fuel with
  | 0 => cases items <;> simp [fmtItemsFuel] at hfuel
  | fuel+1 =>
    cases items with
    | nil => simp [fmtItems]
    | cons x rest =>
      simp only [fmtItems]
      simp only [refFreeItems, Bool.and_eq_true] at hrf
      simp only [fmtItemsFuel] at hfuel
      rw [fmt_refFree fuel model selfName selfPath cache x (some rf) path st hrf.1
        (by omega)]
      simp only [Bind.bind, Except.bind]
      rw [fmtItems_refFree fuel model selfName selfPath cache rest rf path st hrf.2
        (by omega)]

theorem fmtEntries_refFree (fuel : Nat) (model : Model) (selfName : String)
    (selfPath : Option String) (cache : Bool) (entries : List (String × CVal))
    (rf : List String) (path : Option String) (st : St)
    (hrf : refFreeEntries entries = true) (hfuel : fmtEntriesFuel entries ≤ fuel) :
    fmtEntries fuel model selfName selfPath cache entries rf path st = .ok (entries, st) := by
  match fuel with
  | 0 => cases entries <;> simp [fmtEntriesFuel] at hfuel
  | fuel+1 =>
    cases entries with
    | nil => simp [fmtEntries]
    | cons kv rest =>
      obtain ⟨k, v0⟩ := kv
      simp only [fmtEntries]
      simp only [refFreeEntries, Bool.and_eq_true] at hrf
      simp only [fmtEntriesFuel] at hfuel
      rw [fmt_refFree fuel model selfName selfPath cache v0 (some rf) path st hrf.1
        (by omega)]
      simp only [Bind.bind, Except.bind]
      rw [fmtEntries_refFree fuel model selfName selfPath cache rest rf path st hrf.2
        (by omega)]

end

theorem traverseList_refFree (fuel : Nat) (model : Model) (cfg : Cfg) (items : List CVal)
    (out : List CVal) (cache : Bool) (rf : Option (List String)) (holder : Holder) (st : St)
    (hrf : refFreeItems items = true) (hfuel : fmtItemsFuel items ≤ fuel) :
    traverseList fuel model cfg items out cache rf holder st =
      .ok (out ++ flattenItems items, st) := by
  match fuel with
  | 0 => cases items <;> simp [fmtItemsFuel] at hfuel
  | fuel+1 =>
    cases items with
    | nil => simp [traverseList, flattenItems]
    | cons x rest =>
      simp only [traverseList]
      simp only [refFreeItems, Bool.and_eq_true] at hrf
      simp only [fmtItemsFuel] at hfuel
      rw [fmt_refFree fuel model cfg.name cfg.path cache x rf holder.path st hrf.1 (by omega)]
      simp only [Bind.bind, Except.bind]
      cases x with
      | list sub =>
        simp only []
        rw [traverseList_refFree fuel model cfg sub out cache rf holder st
          (by simpa [refFree] using hrf.1) (by simp [fmtFuel] at hfuel; omega)]
        simp only [Bind.bind, Except.bind]
        rw [traverseList_refFree fuel model cfg rest (out ++ flattenItems sub) cache rf holder st
          hrf.2 (by omega)]
        simp [flattenItems, flattenOne, List.append_assoc]
      | str s =>
        simp only []
        rw [traverseList_refFree fuel model cfg rest (out ++ [CVal.str s]) cache rf holder st
          hrf.2 (by omega)]
        simp [flattenItems, flattenOne, List.append_assoc]
      | int i =>
        simp only []
        rw [traverseList_refFree fuel model cfg rest (out ++ [CVal.int i]) cache rf holder st
          hrf.2 (by omega)]
        simp [flattenItems, flattenOne, List.append_assoc]
      | bool b =>
        simp only []
        rw [traverseList_refFree fuel model cfg rest (out ++ [CVal.bool b]) cache rf holder st
          hrf.2 (by omega)]
        simp [flattenItems, flattenOne, List.append_assoc]
      | dict es =>
        simp only []
        rw [traverseList_refFree fuel model cfg rest (out ++ [CVal.dict es]) cache rf holder st
          hrf.2 (by omega)]
        simp [flattenItems, flattenOne, List.append_assoc]

theorem traverseDict_refFree (fuel : Nat) (model : Model) (cfg : Cfg)
    (entries : List (String × CVal)) (out : List (String × CVal)) (cache : Bool)
    (rf : Option (List String)) (holder : Holder) (st : St) (res : List (String × CVal))
    (hrf : refFreeEntries entries = true) (hfuel : fmtEntriesFuel entries ≤ fuel)
    (hok : specMergeDictEntries entries out = .ok res) :
    traverseDict fuel model cfg entries out cache rf holder st = .ok (res, st) := by
  match fuel with
  | 0 => cases entries <;> simp [fmtEntriesFuel] at hfuel
  | fuel+1 =>
    cases entries with
    | nil =>
      simp only [specMergeDictEntries, Except.ok.injEq] at hok
      simp [traverseDict, hok]
    | cons kv rest =>
      obtain ⟨k, v0⟩ := kv
      simp only [traverseDict]
      simp only [refFreeEntries, Bool.and_eq_true] at hrf
      simp only [fmtEntriesFuel] at hfuel
      rw [fmt_refFree fuel model cfg.name cfg.path cache v0 rf holder.path st hrf.1 (by omega)]
      simp only [Bind.bind, Except.bind]
      simp only [specMergeDictEntries] at hok
      rw [except_bind_ok] at hok
      obtain ⟨out1, hone, hrest⟩ := hok
      cases v0 with
      | dict fentries =>
        simp only []
        simp only [specMergeDictOne] at hone
        rw [except_bind_ok] at hone
        obtain ⟨curEntries, hcur, hone⟩ := hone
        rw [except_bind_ok] at hone
        obtain ⟨merged, hmerged, hone⟩ := hone
        simp only [Except.ok.injEq] at hone
        subst hone
        rw [hcur]
        simp only [Bind.bind, Except.bind]
        rw [traverseDict_refFree fuel model cfg fentries curEntries cache rf holder st merged
          (by simpa [refFree] using hrf.1) (by simp [fmtFuel] at hfuel; omega) hmerged]
        simp only [Bind.bind, Except.bind]
        exact traverseDict_refFree fuel model cfg rest (alistSet out k (.dict merged)) cache rf
          holder st res hrf.2 (by omega) hrest
      | list fitems =>
        simp only []
        simp only [specMergeDictOne] at hone
        rw [except_bind_ok] at hone
        obtain ⟨curItems, hcur, hone⟩ := hone
        simp only [Except.ok.injEq] at hone
        subst hone
        rw [hcur]
        simp only [Bind.bind, Except.bind]
        rw [traverseList_refFree fuel model cfg fitems curItems cache rf holder st
          (by simpa [refFree] using hrf.1) (by simp [fmtFuel] at hfuel; omega)]
        simp only [Bind.bind, Except.bind]
        exact traverseDict_refFree fuel model cfg rest
          (alistSet out k (.list (curItems ++ flattenItems fitems))) cache rf
          holder st res hrf.2 (by omega) hrest
      | str s =>
        simp only []
        simp only [specMergeDictOne, Except.ok.injEq] at hone
        subst hone
        exact traverseDict_refFree fuel model cfg rest (alistSet out k (.str s)) cache rf
          holder st res hrf.2 (by omega) hrest
      | int i =>
        simp only []
        simp only [specMergeDictOne, Except.ok.injEq] at hone
        subst hone
        exact traverseDict_refFree fuel model cfg rest (alistSet out k (.int i)) cache rf
          holder st res hrf.2 (by omega) hrest
      | bool b =>
        simp only []
        simp only [specMergeDictOne, Except.ok.injEq] at hone
        subst hone
        exact traverseDict_refFree fuel model cfg rest (alistSet out k (.bool b)) cache rf
          holder st res hrf.2 (by omega) hrest

theorem mergeListHolders_spec (fuel : Nat) (model : Model) (cfg : Cfg) (holders : List Holder)
    (cache : Bool) (rf : Option (List String)) (acc : List CVal) (st : St) (res : List CVal)
    (hrf : ∀ h ∈ holders, refFree h.staticValue = true)
    (hfuel : ∀ h ∈ holders, fmtFuel h.staticValue + holders.length ≤ fuel)
    (hlen : holders.length + 1 ≤ fuel)
    (hok : specListMergeHolders holders acc = .ok res) :
    mergeListHolders fuel model cfg holders cache rf acc st = .ok (res, st) := by
  match fuel with
  | 0 => omega
  | fuel+1 =>
    cases holders with
    | nil =>
      simp only [specListMergeHolders, Except.ok.injEq] at hok
      simp [mergeListHolders, hok]
    | cons h hs =>
      simp only [specListMergeHolders] at hok
      cases hv : h.staticValue with
      | list xs =>
        rw [hv] at hok
        simp only [mergeListHolders]
        have hrfh := hrf h (by simp)
        have hfh := hfuel h (by simp)
        simp only [List.length_cons] at hfh
        rw [fmt_refFree fuel model h.name h.path cache h.staticValue none none st hrfh
          (by omega)]
        simp only [Bind.bind, Except.bind, hv]
        simp only [pyIter]
        rw [traverseList_refFree fuel model cfg xs acc cache rf h st
          (by rw [hv] at hrfh; simpa [refFree] using hrfh)
          (by rw [hv] at hfh; simp [fmtFuel] at hfh; omega)]
        simp only []
        refine mergeListHolders_spec fuel model cfg hs cache rf (acc ++ flattenItems xs) st res
          (fun h2 hm => hrf h2 (by simp [hm])) (fun h2 hm => ?_) (by simp at hlen; omega) hok
        have := hfuel h2 (by simp [hm])
        simp only [List.length_cons] at this
        omega
      | str s => rw [hv] at hok; simp at hok
      | int i => rw [hv] at hok; simp at hok
      | bool b => rw [hv] at hok; simp at hok
      | dict es => rw [hv] at hok; simp at hok

theorem mergeDictHolders_spec (fuel : Nat) (model : Model) (cfg : Cfg) (holders : List Holder)
    (cache : Bool) (rf : Option (List String)) (acc : List (String × CVal)) (st : St)
    (res : List (String × CVal))
    (hrf : ∀ h ∈ holders, refFree h.staticValue = true)
    (hfuel : ∀ h ∈ holders, fmtFuel h.staticValue + holders.length ≤ fuel)
    (hlen : holders.length + 1 ≤ fuel)
    (hok : specDictMergeHolders holders acc = .ok res) :
    mergeDictHolders fuel model cfg holders cache rf acc st = .ok (res, st) := by
  match fuel with
  | 0 => omega
  | fuel+1 =>
    cases holders with
    | nil =>
      simp only [specDictMergeHolders, Except.ok.injEq] at hok
      simp [mergeDictHolders, hok]
    | cons h hs =>
      simp only [specDictMergeHolders] at hok
      cases hv : h.staticValue with
      | dict es =>
        rw [hv] at hok
        simp only at hok
        rw [except_bind_ok] at hok
        obtain ⟨acc1, hmerge, hok⟩ := hok
        simp only [mergeDictHolders]
        have hrfh := hrf h (by simp)
        have hfh := hfuel h (by simp)
        simp only [List.length_cons] at hfh
        rw [fmt_refFree fuel model h.name h.path cache h.staticValue none none st hrfh
          (by omega)]
        simp only [Bind.bind, Except.bind, hv]
        simp only [pyItems]
        rw [traverseDict_refFree fuel model cfg es acc cache rf h st acc1
          (by rw [hv] at hrfh; simpa [refFree] using hrfh)
          (by rw [hv] at hfh; simp [fmtFuel] at hfh; omega) hmerge]
        simp only []
        refine mergeDictHolders_spec fuel model cfg hs cache rf acc1 st res
          (fun h2 hm => hrf h2 (by simp [hm])) (fun h2 hm => ?_) (by simp at hlen; omega) hok
        have := hfuel h2 (by simp [hm])
        simp only [List.length_cons] at this
        omega
      | str s => rw [hv] at hok; simp at hok
      | int i => rw [hv] at hok; simp at hok
      | bool b => rw [hv] at hok; simp at hok
      | list xs => rw [hv] at hok; simp at hok

/-- C6: resolving a Merged(List) config concatenates its (reference-free,
list-valued) holders' items in holder order — items of earlier holders precede
later ones — recursively flattening nested sub-lists in place
(`specListMergeHolders`, built on `flattenItems`). -/
theorem mergedListConcatFlatten (fuel : Nat) (model : Model) (cfg : Cfg)
    (holders : List Holder) (cache : Bool) (st : St) (res : List CVal)
    (hdata : cfg.data = .listCfg holders)
    (hcache : alistFind st.cacheMap cfg.name = none)
    (hrf : ∀ h ∈ holders, refFree h.staticValue = true)
    (hfuel : ∀ h ∈ holders, fmtFuel h.staticValue + holders.length ≤ fuel)
    (hlen : holders.length + 1 ≤ fuel)
    (hok : specListMergeHolders holders [] = .ok res) :
    resolveCfg (fuel+2) model cfg cache none st =
      .ok (.list res, if cache then ⟨alistSet st.cacheMap cfg.name (.list res), st.resolverCalls⟩
        else st) := by
  have hmerge := mergeListHolders_spec fuel model cfg holders cache none [] st res
    hrf hfuel hlen hok
  cases cache <;>
    simp [resolveCfg, getValue, hdata, hcache, hmerge, Bind.bind, Except.bind]

/-- C5: resolving a Merged(Dict) config deep-merges its (reference-free,
dict-valued) holders in order: the result is the left fold of the pure
entry-merge `specMergeDictEntries`, under which a later holder's scalar value
for a key overrides, while dict and list values under the same key are merged
recursively (`specDictMergeHolders`). -/
theorem mergedDictDeepMerge (fuel : Nat) (model : Model) (cfg : Cfg)
    (holders : List Holder) (cache : Bool) (st : St) (res : List (String × CVal))
    (hdata : cfg.data = .dictCfg holders)
    (hcache : alistFind st.cacheMap cfg.name = none)
    (hrf : ∀ h ∈ holders, refFree h.staticValue = true)
    (hfuel : ∀ h ∈ holders, fmtFuel h.staticValue + holders.length ≤ fuel)
    (hlen : holders.length + 1 ≤ fuel)
    (hok : specDictMergeHolders holders [] = .ok res) :
    resolveCfg (fuel+2) model cfg cache none st =
      .ok (.dict res, if cache then ⟨alistSet st.cacheMap cfg.name (.dict res), st.resolverCalls⟩
        else st) := by
  have hmerge := mergeDictHolders_spec fuel model cfg holders cache none [] st res
    hrf hfuel hlen hok
  cases cache <;>
    simp [resolveCfg, getValue, hdata, hcache, hmerge, Bind.bind, Except.bind]


/-- C6 witness: holders `["a","b"]` then `["c"]` resolve to `["a","b","c"]`. -/
theorem mergedListConcatFlattenWitness :
    resolveCfg 20 listModelEx listCfgEx true none St.init =
      .ok (.list [.str "a", .str "b", .str "c"],
        ⟨[("LM", .list [.str "a", .str "b", .str "c"])], 0⟩) := by
  exact mergedListConcatFlatten 18 listModelEx listCfgEx [listHolder1, listHolder2] true
    St.init [.str "a", .str "b", .str "c"] rfl rfl (by decide) (by decide) (by decide) rfl


/-- C5 witness: holders `{"x":1,"y":{"z":1}}` then `{"y":{"w":2}}` resolve to
`{"x":1,"y":{"z":1,"w":2}}`. -/
theorem mergedDictDeepMergeWitness :
    resolveCfg 20 dictModelEx dictCfgEx true none St.init =
      .ok (.dict [("x", .int 1), ("y", .dict [("z", .int 1), ("w", .int 2)])],
        ⟨[("DM", .dict [("x", .int 1), ("y", .dict [("z", .int 1), ("w", .int 2)])])], 0⟩) := by
  exact mergedDictDeepMerge 18 dictModelEx dictCfgEx [dictHolder1, dictHolder2] true
    St.init [("x", .int 1), ("y", .dict [("z", .int 1), ("w", .int 2)])]
    rfl rfl (by decide) (by decide) (by decide) rfl
